import Mathlib

/-!
Verification development for the VPN-Server-Console control plane.

Shallow embedding of the repository's pure core: the address allocator
(`app/wg.py:allocate_ip`), the kernel-dump classification
(`app/wg.py:get_connected_peers`), the configuration-file codec
(`app/wg.py:parse_config` / `build_config`), the config-file mutators
(`app/wg.py:add_peer_to_config`), the peer-lifecycle orchestration
(`app/users.py:create_vpn_user`, `sync_all_users`), the firewall ACL
enforcer (`app/firewall.py:apply_acl` / `remove_acl`), and the telemetry
persistence pass (`app/stats.py:sync_stats_to_db`).

Python strings are modelled as `List Char`; machine integers as `Nat`
(byte counters, unix timestamps — unsigned in the source's data) or
`Int` (ages that can go negative); fallible operations return explicit
error values; external effects (subprocesses, database, kernel) are
modelled by explicit state passing together with failure-injection
oracles, so every failure path of the source is reachable in the model.
-/

namespace VPNConsole

/-! ## Address allocator (`app/wg.py:allocate_ip`, `app/config.py`) -/

/-- `VPN_IP_START` from `app/config.py` (first client IP suffix). -/
def VPN_IP_START : Nat := 3

/-- `VPN_IP_END` from `app/config.py` (last client IP suffix). -/
def VPN_IP_END : Nat := 254

/-- The candidate address string built by `allocate_ip`'s f-string
`f"10.50.0.{i}"`. -/
def mkAddr (i : Nat) : String := "10.50.0." ++ toString i

/-- `app/wg.py:allocate_ip`: scan `range(VPN_IP_START, VPN_IP_END + 1)`
and return the first candidate absent from `used_ips`; raise
`WireGuardError` (modelled as `.error`) when none is free. -/
def allocate_ip (used_ips : List String) : Except String String :=
  match (List.range' VPN_IP_START (VPN_IP_END + 1 - VPN_IP_START)).find?
      (fun i => !(used_ips.contains (mkAddr i))) with
  | some i => .ok (mkAddr i)
  | none => .error "No available IP addresses in VPN subnet"

/-! ## Kernel dump classification (`app/wg.py:get_connected_peers`) -/

/-- `HANDSHAKE_TIMEOUT` from `app/wg.py:get_connected_peers`. -/
def HANDSHAKE_TIMEOUT : Int := 300

/-- One entry of the dict returned by `get_connected_peers`. -/
structure PeerInfo where
  endpoint : Option String
  latest_handshake : Option Nat
  transfer_rx : Nat
  transfer_tx : Nat
  connected : Bool
  deriving Repr, DecidableEq

/-- The per-dump-line processing of `get_connected_peers` after field
splitting: `parts[2]` (endpoint), `parts[4]` (handshake unix time, already
converted by `int(...)`, a nonnegative value in a `wg show ... dump`),
`parts[5]`/`parts[6]` (transfer counters). Mirrors
`latest_handshake = int(parts[4]) if parts[4] != '0' else None` and the
connectedness computation guarded by `latest_handshake > 0`. -/
def mkPeerEntry (now : Int) (endpoint_field : String) (handshake_field : Nat)
    (rx tx : Nat) : PeerInfo :=
  let endpoint : Option String :=
    if endpoint_field = "(none)" then none else some endpoint_field
  let latest_handshake : Option Nat :=
    if handshake_field ≠ 0 then some handshake_field else none
  let is_connected : Bool :=
    match latest_handshake with
    | some h => if 0 < h then decide ((now - (h : Int)) < HANDSHAKE_TIMEOUT) else false
    | none => false
  { endpoint := endpoint, latest_handshake := latest_handshake,
    transfer_rx := rx, transfer_tx := tx, connected := is_connected }

/-! ## Theorems for claims C7 and C8 -/

lemma find?_range'_some_iff (p : Nat → Bool) :
    ∀ (n s i : Nat), (List.range' s n).find? p = some i ↔
      s ≤ i ∧ i < s + n ∧ p i = true ∧ ∀ j, s ≤ j → j < i → p j = false := by
  intro n
  induction n with
  | zero =>
    intro s i
    simp only [List.range', List.find?]
    constructor
    · intro h; cases h
    · rintro ⟨h1, h2, -, -⟩; omega
  | succ n ih =>
    intro s i
    rw [List.range'_succ]
    simp only [List.find?]
    cases hps : p s with
    | true =>
      constructor
      · intro h
        have hi : i = s := by cases h; rfl
        subst hi
        exact ⟨le_refl _, by omega, hps, fun j hj1 hj2 => by omega⟩
      · rintro ⟨h1, h2, h3, h4⟩
        have hi : i = s := by
          by_contra hne
          have hsi : s < i := lt_of_le_of_ne h1 (fun e => hne e.symm)
          have := h4 s (le_refl _) hsi
          rw [hps] at this
          cases this
        subst hi
        rfl
    | false =>
      rw [ih (s + 1) i]
      constructor
      · rintro ⟨h1, h2, h3, h4⟩
        refine ⟨by omega, by omega, h3, fun j hj1 hj2 => ?_⟩
        rcases Nat.eq_or_lt_of_le hj1 with he | hl
        · subst he; exact hps
        · exact h4 j hl hj2
      · rintro ⟨h1, h2, h3, h4⟩
        have hsi : s < i := by
          rcases Nat.eq_or_lt_of_le h1 with he | hl
          · subst he; rw [hps] at h3; cases h3
          · exact hl
        exact ⟨hsi, by omega, h3, fun j hj1 hj2 => h4 j (by omega) hj2⟩

lemma contains_mem_iff (l : List String) (a : String) :
    l.contains a = true ↔ a ∈ l := by
  simp [List.contains, List.elem_iff]

/-- C7: for every peer line of a kernel dump, the `connected` flag is true
iff the latest-handshake timestamp is nonzero and `now - latest_handshake`
is strictly below the liveness window (300 s); in particular an age exactly
equal to the window is classified not-connected. -/
theorem connected_iff_nonzero_handshake_within_window :
    ∀ (now : Int) (ep : String) (h rx tx : Nat),
      ((mkPeerEntry now ep h rx tx).connected = true ↔
        h ≠ 0 ∧ now - (h : Int) < HANDSHAKE_TIMEOUT) ∧
      (mkPeerEntry ((h : Int) + HANDSHAKE_TIMEOUT) ep h rx tx).connected = false := by
  intro now ep h rx tx
  constructor
  · simp only [mkPeerEntry]
    by_cases h0 : h = 0
    · subst h0
      simp
    · simp only [h0, if_true, ne_eq, not_false_eq_true, ite_true]
      have hpos : 0 < h := Nat.pos_of_ne_zero h0
      simp [hpos]
  · simp only [mkPeerEntry]
    by_cases h0 : h = 0
    · subst h0
      simp
    · have hpos : 0 < h := Nat.pos_of_ne_zero h0
      simp only [h0, ne_eq, not_false_eq_true, ite_true, hpos]
      simp

/-- C8: `allocate_ip` returns the smallest free host index in
`[VPN_IP_START, VPN_IP_END] = [3, 254]`; it errors iff every index in the
range is used; when only index 254 is free it returns `10.50.0.254`. -/
theorem allocate_ip_first_free_or_exhausted :
    ∀ used : List String,
      (∀ a, allocate_ip used = .ok a ↔
        ∃ i, VPN_IP_START ≤ i ∧ i ≤ VPN_IP_END ∧ a = mkAddr i ∧
          mkAddr i ∉ used ∧
          ∀ j, VPN_IP_START ≤ j → j < i → mkAddr j ∈ used) ∧
      ((∃ e, allocate_ip used = .error e) ↔
        ∀ i, VPN_IP_START ≤ i → i ≤ VPN_IP_END → mkAddr i ∈ used) ∧
      ((∀ i, VPN_IP_START ≤ i → i ≤ VPN_IP_END - 1 → mkAddr i ∈ used) →
        mkAddr VPN_IP_END ∉ used →
        allocate_ip used = .ok (mkAddr VPN_IP_END)) := by
  intro used
  have hp : ∀ i, (!(used.contains (mkAddr i))) = true ↔ mkAddr i ∉ used := by
    intro i
    rw [Bool.not_eq_true']
    constructor
    · intro h hmem
      rw [(contains_mem_iff used (mkAddr i)).mpr hmem] at h
      cases h
    · intro h
      cases hc : used.contains (mkAddr i) with
      | false => rfl
      | true => exact absurd ((contains_mem_iff used (mkAddr i)).mp hc) h
  have hok : ∀ a, allocate_ip used = .ok a ↔
      ∃ i, VPN_IP_START ≤ i ∧ i ≤ VPN_IP_END ∧ a = mkAddr i ∧
        mkAddr i ∉ used ∧
        ∀ j, VPN_IP_START ≤ j → j < i → mkAddr j ∈ used := by
    intro a
    unfold allocate_ip
    cases hfind : (List.range' VPN_IP_START (VPN_IP_END + 1 - VPN_IP_START)).find?
        (fun i => !(used.contains (mkAddr i))) with
    | some i =>
      rw [find?_range'_some_iff] at hfind
      obtain ⟨h1, h2, h3, h4⟩ := hfind
      simp only [VPN_IP_START, VPN_IP_END] at h1 h2 h3 h4 ⊢
      constructor
      · intro h
        have ha : a = mkAddr i := by cases h; rfl
        refine ⟨i, by omega, by omega, ha, (hp i).mp h3, fun j hj1 hj2 => ?_⟩
        have := h4 j hj1 hj2
        rw [Bool.not_eq_false'] at this
        exact (contains_mem_iff used (mkAddr j)).mp this
      · rintro ⟨i', hi1, hi2, ha, hfree, hbelow⟩
        have hii : i = i' := by
          rcases Nat.lt_trichotomy i i' with hl | he | hg
          · exact absurd (hbelow i (by omega) hl) ((hp i).mp h3)
          · exact he
          · have hfalse := h4 i' (by omega) hg
            rw [Bool.not_eq_false'] at hfalse
            exact absurd ((contains_mem_iff used (mkAddr i')).mp hfalse) hfree
        subst hii
        rw [ha]
    | none =>
      rw [List.find?_eq_none] at hfind
      constructor
      · intro h; cases h
      · rintro ⟨i, hi1, hi2, -, hfree, -⟩
        have hmem : i ∈ List.range' VPN_IP_START (VPN_IP_END + 1 - VPN_IP_START) := by
          rw [List.mem_range'_1]
          simp only [VPN_IP_START, VPN_IP_END] at hi1 hi2 ⊢
          omega
        have := hfind i hmem
        rw [Bool.not_eq_true] at this
        exact absurd ((hp i).mpr hfree) (by rw [this]; intro hc; cases hc)
  refine ⟨hok, ?_, ?_⟩
  · constructor
    · rintro ⟨e, he⟩ i hi1 hi2
      unfold allocate_ip at he
      cases hfind : (List.range' VPN_IP_START (VPN_IP_END + 1 - VPN_IP_START)).find?
          (fun i => !(used.contains (mkAddr i))) with
      | some j => rw [hfind] at he; cases he
      | none =>
        rw [List.find?_eq_none] at hfind
        have hmem : i ∈ List.range' VPN_IP_START (VPN_IP_END + 1 - VPN_IP_START) := by
          rw [List.mem_range'_1]
          simp only [VPN_IP_START, VPN_IP_END] at hi1 hi2 ⊢
          omega
        have := hfind i hmem
        rw [Bool.not_eq_true, Bool.not_eq_false'] at this
        exact (contains_mem_iff used (mkAddr i)).mp this
    · intro hall
      cases hres : allocate_ip used with
      | error e => exact ⟨e, rfl⟩
      | ok a =>
        obtain ⟨i, hi1, hi2, -, hfree, -⟩ := (hok a).mp hres
        exact absurd (hall i hi1 hi2) hfree
  · intro hbelow hfree
    refine (hok (mkAddr VPN_IP_END)).mpr ⟨VPN_IP_END, ?_, le_refl _, rfl, hfree, ?_⟩
    · simp [VPN_IP_START, VPN_IP_END]
    · intro j hj1 hj2
      exact hbelow j hj1 (by simp only [VPN_IP_END] at hj2 ⊢; omega)

/-- Witness for C8: on an empty used set the allocator yields the smallest
index of the range, `10.50.0.3`. -/
theorem allocate_ip_first_free_or_exhausted_witness :
    allocate_ip [] = .ok (mkAddr 3) :=
  ((allocate_ip_first_free_or_exhausted []).1 (mkAddr 3)).mpr
    ⟨3, by decide, by decide, rfl, by simp,
      fun j h1 h2 => absurd h2 (Nat.not_lt.mpr h1)⟩

/-! ## Firewall ACL enforcer (`app/firewall.py`)

The `VPN_ACL` chain is modelled as the ordered list of its rules, the
way iptables stores a chain.  A rule is its match specification:
source address, optional destination, and target.  `iptables -A` appends
a rule; `iptables -D <spec>` deletes the first rule whose specification
equals `<spec>` exactly (a rule with no `-d` given is a different
specification from one with `-d <net>`), returning failure when no rule
matches — which is how the `while run_iptables([...]): pass` loops of
`remove_acl` terminate.  A while-delete-first loop therefore removes
every occurrence of one exact rule specification. -/

/-- Rule target of an `iptables -j` argument as used in `apply_acl`. -/
inductive RuleAction where
  | accept
  | drop
  | reject
  deriving Repr, DecidableEq

/-- One rule of the `VPN_ACL` chain: `-s src [-d dst] -j act`. -/
structure Rule where
  src : String
  dst : Option String
  act : RuleAction
  deriving Repr, DecidableEq

/-- `PRIVATE_NETWORKS` from `app/firewall.py`. -/
def PRIVATE_NETWORKS : List String := ["10.0.0.0/8", "172.16.0.0/12", "192.168.0.0/16"]

/-- `VPN_SERVER_IP` from `app/config.py`. -/
def VPN_SERVER_IP : String := "10.50.0.1"

/-- The effect of `while run_iptables(["-D", "VPN_ACL", ...]): pass`:
delete every occurrence of one exact rule specification. -/
def deleteAllRule (r : Rule) (chain : List Rule) : List Rule :=
  chain.filter (fun q => q ≠ r)

/-- `app/firewall.py:remove_acl`: the fixed sequence of while-delete
loops — bare ACCEPT, bare DROP, bare REJECT, then per private network
the `-d net` DROP and `-d net` ACCEPT shapes. -/
def remove_acl (ip : String) (chain : List Rule) : List Rule :=
  let c1 := deleteAllRule ⟨ip, none, .accept⟩ chain
  let c2 := deleteAllRule ⟨ip, none, .drop⟩ c1
  let c3 := deleteAllRule ⟨ip, none, .reject⟩ c2
  PRIVATE_NETWORKS.foldl
    (fun c net => deleteAllRule ⟨ip, some net, .accept⟩ (deleteAllRule ⟨ip, some net, .drop⟩ c)) c3

/-- `app/firewall.py:apply_acl`: cleanup via `remove_acl`, then install
the profile's rules with `iptables -A VPN_ACL` (appends, in order). -/
def apply_acl (ip : String) (profile : String) (chain : List Rule) : List Rule :=
  let c := remove_acl ip chain
  if profile = "full" then
    c ++ [⟨ip, none, .accept⟩]
  else if profile = "internet-only" then
    (PRIVATE_NETWORKS.foldl
      (fun c net => c ++ [⟨ip, some VPN_SERVER_IP, .accept⟩, ⟨ip, some net, .drop⟩]) c)
      ++ [⟨ip, none, .accept⟩]
  else if profile = "intranet-only" then
    (PRIVATE_NETWORKS.foldl (fun c net => c ++ [⟨ip, some net, .accept⟩]) c)
      ++ [⟨ip, none, .drop⟩]
  else
    c

/-- C9 (code bug): `remove_acl` misses the rule shape
`-s ip -d VPN_SERVER_IP -j ACCEPT` that the `internet-only` profile
installs (its delete loops only cover bare-target shapes and
`-d net` shapes for the three RFC1918 networks), so
`apply_acl ip "internet-only"` is NOT idempotent: a second identical
application leaves three duplicated accept-to-server rules at the head of
the chain — the 7-rule chain grows to 10 rules. -/
theorem apply_acl_internet_only_not_idempotent :
    apply_acl "10.50.0.4" "internet-only" [] =
      [⟨"10.50.0.4", some VPN_SERVER_IP, .accept⟩,
       ⟨"10.50.0.4", some "10.0.0.0/8", .drop⟩,
       ⟨"10.50.0.4", some VPN_SERVER_IP, .accept⟩,
       ⟨"10.50.0.4", some "172.16.0.0/12", .drop⟩,
       ⟨"10.50.0.4", some VPN_SERVER_IP, .accept⟩,
       ⟨"10.50.0.4", some "192.168.0.0/16", .drop⟩,
       ⟨"10.50.0.4", none, .accept⟩] ∧
    apply_acl "10.50.0.4" "internet-only"
        (apply_acl "10.50.0.4" "internet-only" []) ≠
      apply_acl "10.50.0.4" "internet-only" [] ∧
    (apply_acl "10.50.0.4" "internet-only"
        (apply_acl "10.50.0.4" "internet-only" [])).length = 10 := by
  refine ⟨by decide, by decide, by decide⟩

/-! ## Telemetry persistence (`app/stats.py:sync_stats_to_db`)

The database is modelled as the list of `users` rows and `vpn_sessions`
rows; the module-level dicts `_last_stats` and `_active_sessions` as
association lists (Python dicts preserve insertion order: assignment to
an absent key appends, deletion removes the key's entry).  `db.flush()`
materialises the autoincrement id of a new session row, modelled by the
`nextSessionId` counter.  One call of `sync_stats_to_db` is one poller
tick: it receives the forced kernel dump (`get_connected_peers`
result) as an association list from public key to `PeerInfo`. -/

/-- A `users` table row (the columns `sync_stats_to_db` touches). -/
structure DbUser where
  id : Nat
  public_key : String
  total_rx : Nat
  total_tx : Nat
  last_login : Option Nat
  last_endpoint : Option String
  deriving Repr, DecidableEq

/-- A `vpn_sessions` table row. -/
structure SessionRow where
  id : Nat
  user_id : Nat
  public_key : String
  start_time : Nat
  end_time : Option Nat
  source_ip : Option String
  bytes_rx : Nat
  bytes_tx : Nat
  is_active : Nat
  deriving Repr, DecidableEq

/-- The state read and written by the stats poller. -/
structure StatsState where
  users : List DbUser
  sessions : List SessionRow
  lastStats : List (String × Nat × Nat)
  activeSessions : List (String × Nat)
  nextSessionId : Nat
  deriving Repr, DecidableEq

/-- Python dict assignment `m[k] = v`: overwrite in place when the key
exists, append otherwise. -/
def setAssoc {α : Type} (m : List (String × α)) (k : String) (v : α) :
    List (String × α) :=
  if m.any (fun e => e.1 == k) then
    m.map (fun e => if e.1 == k then (k, v) else e)
  else
    m ++ [(k, v)]

/-- The row transformation of the SQL `update(User).where(User.public_key
== pub_key).values(...)` statement of `sync_stats_to_db`: add the deltas
to the cumulative totals and overwrite `last_login` / `last_endpoint`
with the latest truthy value. -/
def statsUserUpdate (pk : String) (info : PeerInfo) (delta_rx delta_tx : Nat)
    (u : DbUser) : DbUser :=
  if u.public_key == pk then
    { u with
      total_rx := u.total_rx + delta_rx,
      total_tx := u.total_tx + delta_tx,
      last_login :=
        match info.latest_handshake with
        | some h => if h ≠ 0 then some h else u.last_login
        | none => u.last_login,
      last_endpoint :=
        match info.endpoint with
        | some e => if e ≠ "" then some e else u.last_endpoint
        | none => u.last_endpoint }
  else u

/-- The session-creation branch of `sync_stats_to_db` (`db.add` of a new
`Session` row, `db.flush()` to materialise its id, and the
`_active_sessions[pub_key] = new_session.id` dict insert). -/
def newSessionRow (st : StatsState) (now : Nat) (pk : String) (info : PeerInfo)
    (userId : Nat) : SessionRow :=
  { id := st.nextSessionId, user_id := userId, public_key := pk,
    start_time := now, end_time := none,
    source_ip :=
      (match info.endpoint with
       | some e => if e ≠ "" then some (e.takeWhile (fun c => c ≠ ':')) else none
       | none => none),
    bytes_rx := 0, bytes_tx := 0, is_active := 1 }

def sessionOpen (st : StatsState) (now : Nat) (pk : String) (info : PeerInfo)
    (userId : Nat) : StatsState :=
  { st with
    sessions := st.sessions ++ [newSessionRow st now pk info userId],
    activeSessions := st.activeSessions ++ [(pk, st.nextSessionId)],
    nextSessionId := st.nextSessionId + 1 }

/-- The active-session byte-accumulation branch of `sync_stats_to_db`
(the SQL `update(Session).where(Session.id == _active_sessions[pub_key])`
statement). -/
def sessionUpdateBytes (st : StatsState) (pk : String) (delta_rx delta_tx : Nat) :
    StatsState :=
  { st with
    sessions := st.sessions.map (fun s =>
      if (st.activeSessions.lookup pk) = some s.id then
        { s with bytes_rx := s.bytes_rx + delta_rx,
                 bytes_tx := s.bytes_tx + delta_tx }
      else s) }

/-- The body of the per-peer loop of `sync_stats_to_db`, threading the
state together with the `current_connected` accumulator. -/
def statsPeerStep (now : Nat) (acc : StatsState × List String)
    (entry : String × PeerInfo) : StatsState × List String :=
  let st := acc.1
  let conn := acc.2
  let pk := entry.1
  let info := entry.2
  let rx := info.transfer_rx
  let tx := info.transfer_tx
  let is_connected := info.connected
  match st.users.find? (fun u => u.public_key == pk) with
  | none => (st, conn)
  | some user =>
    let conn' := if is_connected then conn ++ [pk] else conn
    let last := (st.lastStats.lookup pk).getD (0, 0)
    let delta_rx := if last.1 ≤ rx then rx - last.1 else rx
    let delta_tx := if last.2 ≤ tx then tx - last.2 else tx
    let users' :=
      if 0 < delta_rx ∨ 0 < delta_tx then
        st.users.map (statsUserUpdate pk info delta_rx delta_tx)
      else st.users
    let st1 := { st with users := users' }
    let st2 :=
      if is_connected && (st1.activeSessions.lookup pk).isNone then
        sessionOpen st1 now pk info user.id
      else if is_connected && (st1.activeSessions.lookup pk).isSome then
        sessionUpdateBytes st1 pk delta_rx delta_tx
      else st1
    ({ st2 with lastStats := setAssoc st2.lastStats pk (rx, tx) }, conn')

/-- The trailing loop of `sync_stats_to_db`: close the session of every
tracked peer that is not in `current_connected`, and drop it from
`_active_sessions`. -/
def statsClosePhase (now : Nat) (st : StatsState) (conn : List String) :
    StatsState :=
  let toClose := st.activeSessions.filter (fun e => !(conn.contains e.1))
  { st with
    sessions := st.sessions.map (fun s =>
      if toClose.any (fun e => e.2 == s.id) then
        { s with end_time := some now, is_active := 0 }
      else s),
    activeSessions := st.activeSessions.filter (fun e => conn.contains e.1) }

/-- `app/stats.py:sync_stats_to_db`, one successful tick. -/
def sync_stats_to_db (st : StatsState) (now : Nat)
    (peers : List (String × PeerInfo)) : StatsState :=
  let r := peers.foldl (statsPeerStep now) (st, [])
  statsClosePhase now r.1 r.2

/-- The persisted cumulative received total for a public key. -/
def getTotalRx (st : StatsState) (pk : String) : Nat :=
  match st.users.find? (fun u => u.public_key == pk) with
  | some u => u.total_rx
  | none => 0

/-- The persisted cumulative transmitted total for a public key. -/
def getTotalTx (st : StatsState) (pk : String) : Nat :=
  match st.users.find? (fun u => u.public_key == pk) with
  | some u => u.total_tx
  | none => 0

lemma find?_map_key_preserving (l : List DbUser) (f : DbUser → DbUser)
    (hf : ∀ u, (f u).public_key = u.public_key) (pk : String) :
    (l.map f).find? (fun u => u.public_key == pk) =
      (l.find? (fun u => u.public_key == pk)).map f := by
  induction l with
  | nil => rfl
  | cons u t ih =>
    simp only [List.map_cons, List.find?]
    rw [hf u]
    cases hu : (u.public_key == pk) with
    | true => rfl
    | false => exact ih

lemma statsUserUpdate_key (pk : String) (info : PeerInfo) (a b : Nat)
    (u : DbUser) : (statsUserUpdate pk info a b u).public_key = u.public_key := by
  unfold statsUserUpdate
  split <;> rfl

lemma statsUserUpdate_totals (pk : String) (info : PeerInfo) (a b : Nat)
    (u : DbUser) : u.total_rx ≤ (statsUserUpdate pk info a b u).total_rx ∧
      u.total_tx ≤ (statsUserUpdate pk info a b u).total_tx := by
  unfold statsUserUpdate
  split
  · exact ⟨Nat.le_add_right _ _, Nat.le_add_right _ _⟩
  · exact ⟨le_refl _, le_refl _⟩

lemma statsPeerStep_users (now : Nat) (acc : StatsState × List String)
    (entry : String × PeerInfo) :
    (statsPeerStep now acc entry).1.users = acc.1.users ∨
    ∃ a b, (statsPeerStep now acc entry).1.users =
      acc.1.users.map (statsUserUpdate entry.1 entry.2 a b) := by
  simp only [statsPeerStep]
  cases hfind : acc.1.users.find? (fun u => u.public_key == entry.1) with
  | none => simp [hfind]
  | some user =>
    simp only [hfind]
    repeat' split
    all_goals first
      | (left; rfl)
      | (right; exact ⟨_, _, rfl⟩)

lemma getTotal_users_map (st : StatsState) (users' : List DbUser)
    (pk k : String) (info : PeerInfo) (a b : Nat)
    (h : users' = st.users.map (statsUserUpdate k info a b)) :
    getTotalRx st pk ≤ getTotalRx { st with users := users' } pk ∧
    getTotalTx st pk ≤ getTotalTx { st with users := users' } pk := by
  subst h
  simp only [getTotalRx, getTotalTx,
    find?_map_key_preserving st.users _ (statsUserUpdate_key k info a b) pk]
  cases hfind : st.users.find? (fun u => u.public_key == pk) with
  | none => simp
  | some u =>
    simp only [Option.map_some']
    exact (statsUserUpdate_totals k info a b u)

lemma statsPeerStep_total_mono (now : Nat) (acc : StatsState × List String)
    (entry : String × PeerInfo) (pk : String) :
    getTotalRx acc.1 pk ≤ getTotalRx (statsPeerStep now acc entry).1 pk ∧
    getTotalTx acc.1 pk ≤ getTotalTx (statsPeerStep now acc entry).1 pk := by
  have husers := statsPeerStep_users now acc entry
  have hrx : getTotalRx (statsPeerStep now acc entry).1 pk =
      getTotalRx { acc.1 with users := (statsPeerStep now acc entry).1.users } pk := by
    simp [getTotalRx]
  have htx : getTotalTx (statsPeerStep now acc entry).1 pk =
      getTotalTx { acc.1 with users := (statsPeerStep now acc entry).1.users } pk := by
    simp [getTotalTx]
  rcases husers with h | ⟨a, b, h⟩
  · rw [hrx, htx, h]
    exact ⟨le_refl _, le_refl _⟩
  · rw [hrx, htx]
    exact getTotal_users_map acc.1 _ pk entry.1 entry.2 a b h

lemma foldl_statsPeerStep_total_mono (now : Nat) (peers : List (String × PeerInfo)) :
    ∀ (acc : StatsState × List String) (pk : String),
      getTotalRx acc.1 pk ≤ getTotalRx (peers.foldl (statsPeerStep now) acc).1 pk ∧
      getTotalTx acc.1 pk ≤ getTotalTx (peers.foldl (statsPeerStep now) acc).1 pk := by
  induction peers with
  | nil => intro acc pk; exact ⟨le_refl _, le_refl _⟩
  | cons e t ih =>
    intro acc pk
    have h1 := statsPeerStep_total_mono now acc e pk
    have h2 := ih (statsPeerStep now acc e) pk
    exact ⟨le_trans h1.1 h2.1, le_trans h1.2 h2.2⟩

lemma statsClosePhase_users (now : Nat) (st : StatsState) (conn : List String) :
    (statsClosePhase now st conn).users = st.users := rfl

lemma getTotalRx_statsClosePhase (now : Nat) (st : StatsState)
    (conn : List String) (pk : String) :
    getTotalRx (statsClosePhase now st conn) pk = getTotalRx st pk := rfl

lemma getTotalTx_statsClosePhase (now : Nat) (st : StatsState)
    (conn : List String) (pk : String) :
    getTotalTx (statsClosePhase now st conn) pk = getTotalTx st pk := rfl

lemma find?_map_statsUserUpdate (l : List DbUser) (k : String) (info : PeerInfo)
    (a b : Nat) (pk : String) :
    (l.map (statsUserUpdate k info a b)).find? (fun u => u.public_key == pk) =
      (l.find? (fun u => u.public_key == pk)).map (statsUserUpdate k info a b) :=
  find?_map_key_preserving l _ (statsUserUpdate_key k info a b) pk

lemma sessionOpen_users (st : StatsState) (now : Nat) (pk : String)
    (info : PeerInfo) (userId : Nat) :
    (sessionOpen st now pk info userId).users = st.users := rfl

lemma sessionUpdateBytes_users (st : StatsState) (pk : String) (a b : Nat) :
    (sessionUpdateBytes st pk a b).users = st.users := rfl

lemma statsPeerStep_total_eq (now : Nat) (st : StatsState) (conn : List String)
    (pk : String) (info : PeerInfo) (u : DbUser)
    (hfind : st.users.find? (fun v => v.public_key == pk) = some u) :
    getTotalRx (statsPeerStep now (st, conn) (pk, info)).1 pk =
      getTotalRx st pk +
        (if ((st.lastStats.lookup pk).getD (0, 0)).1 ≤ info.transfer_rx then
          info.transfer_rx - ((st.lastStats.lookup pk).getD (0, 0)).1
         else info.transfer_rx) := by
  have hp : (u.public_key == pk) = true := by
    have h2 := List.find?_some hfind
    simpa using h2
  simp only [statsPeerStep, hfind]
  repeat' split
  all_goals
    simp only [getTotalRx, sessionOpen_users, sessionUpdateBytes_users,
      find?_map_statsUserUpdate, hfind, Option.map_some',
      statsUserUpdate, hp, if_true] <;>
    omega

/-- C5: each successful poller tick adds, per peer, the delta
`current - lastSeen` when `current ≥ lastSeen` and `current` otherwise
(counter reset) to the persisted totals; consequently `total_rx` and
`total_tx` never decrease across ticks, and a reset of rx from
1,000,000 to 50,000 on consecutive ticks grows the persisted `total_rx`
by exactly 50,000. -/
theorem stats_delta_accumulation_monotone :
    (∀ st now peers pk,
      getTotalRx st pk ≤ getTotalRx (sync_stats_to_db st now peers) pk ∧
      getTotalTx st pk ≤ getTotalTx (sync_stats_to_db st now peers) pk) ∧
    (∀ st now pk info u,
      st.users.find? (fun v => v.public_key == pk) = some u →
      getTotalRx (sync_stats_to_db st now [(pk, info)]) pk =
        getTotalRx st pk +
          (if ((st.lastStats.lookup pk).getD (0, 0)).1 ≤ info.transfer_rx then
            info.transfer_rx - ((st.lastStats.lookup pk).getD (0, 0)).1
           else info.transfer_rx)) ∧
    (let st0 : StatsState := ⟨[⟨1, "K", 0, 0, none, none⟩], [], [], [], 1⟩
     let info1 : PeerInfo := ⟨some "198.51.100.7:51820", some 1000, 1000000, 2000, true⟩
     let info2 : PeerInfo := ⟨some "198.51.100.7:51820", some 1020, 50000, 2100, true⟩
     let st1 := sync_stats_to_db st0 100 [("K", info1)]
     let st2 := sync_stats_to_db st1 120 [("K", info2)]
     getTotalRx st1 "K" = 1000000 ∧
     getTotalRx st2 "K" = getTotalRx st1 "K" + 50000) := by
  refine ⟨?_, ?_, ?_⟩
  · intro st now peers pk
    rw [sync_stats_to_db, getTotalRx_statsClosePhase, getTotalTx_statsClosePhase]
    exact foldl_statsPeerStep_total_mono now peers (st, []) pk
  · intro st now pk info u hfind
    rw [sync_stats_to_db]
    rw [getTotalRx_statsClosePhase]
    exact statsPeerStep_total_eq now st [] pk info u hfind
  · exact ⟨by decide, by decide⟩

/-- Witness for C5: the single-peer delta equation at a concrete state —
with `lastSeen = 300` and `current = 1300` the tick adds exactly 1000. -/
theorem stats_delta_accumulation_monotone_witness :
    getTotalRx
        (sync_stats_to_db ⟨[⟨1, "W", 7, 0, none, none⟩], [], [("W", 300, 0)], [], 1⟩
          50 [("W", ⟨none, none, 1300, 0, false⟩)]) "W" = 7 + 1000 := by
  have h := stats_delta_accumulation_monotone.2.1
    ⟨[⟨1, "W", 7, 0, none, none⟩], [], [("W", 300, 0)], [], 1⟩
    50 "W" ⟨none, none, 1300, 0, false⟩ ⟨1, "W", 7, 0, none, none⟩ (by decide)
  rw [h]
  decide

/-! ## Session bookkeeping lemmas (claim C6) -/

lemma lookup_append (l1 l2 : List (String × Nat)) (k : String) :
    (l1 ++ l2).lookup k = ((l1.lookup k).orElse (fun _ => l2.lookup k)) := by
  induction l1 with
  | nil => simp [List.lookup]
  | cons e t ih =>
    cases e with
    | mk k' v =>
      simp only [List.cons_append, List.lookup]
      cases hk : (k == k') with
      | true => simp
      | false => simpa using ih

lemma mem_of_lookup_eq_some {l : List (String × Nat)} {k : String} {v : Nat}
    (h : l.lookup k = some v) : (k, v) ∈ l := by
  induction l with
  | nil => cases h
  | cons e t ih =>
    cases e with
    | mk k' v' =>
      simp only [List.lookup] at h
      cases hk : (k == k') with
      | true =>
        rw [hk] at h
        have hv : v' = v := by cases h; rfl
        have hkk : k = k' := by simpa using hk
        subst hv; subst hkk
        exact List.mem_cons_self _ _
      | false =>
        rw [hk] at h
        exact List.mem_cons_of_mem _ (ih h)

lemma lookup_eq_none_iff (l : List (String × Nat)) (k : String) :
    l.lookup k = none ↔ k ∉ l.map (fun e => e.1) := by
  induction l with
  | nil => simp [List.lookup]
  | cons e t ih =>
    cases e with
    | mk k' v' =>
      simp only [List.lookup, List.map_cons, List.mem_cons]
      cases hk : (k == k') with
      | true =>
        have : k = k' := by simpa using hk
        simp [this]
      | false =>
        have : ¬ k = k' := by simpa using hk
        simp [this, ih]

lemma lookup_of_mem_keys_nodup {l : List (String × Nat)} {k : String} {v : Nat}
    (hnd : (l.map (fun e => e.1)).Nodup) (hmem : (k, v) ∈ l) :
    l.lookup k = some v := by
  induction l with
  | nil => cases hmem
  | cons e t ih =>
    cases e with
    | mk k' v' =>
      simp only [List.map_cons, List.nodup_cons] at hnd
      rcases List.mem_cons.mp hmem with he | ht
      · have h1 : k = k' := congrArg Prod.fst he
        have h2 : v = v' := congrArg Prod.snd he
        subst h1; subst h2
        simp [List.lookup]
      · have hne : ¬ k = k' := by
          intro he'
          subst he'
          exact hnd.1 (List.mem_map_of_mem (fun e => e.1) ht)
        simp only [List.lookup, beq_false_of_ne hne]
        exact ih hnd.2 ht

lemma lookup_filter_keys (q : String → Bool) (l : List (String × Nat)) (k : String) :
    (l.filter (fun e => q e.1)).lookup k = if q k then l.lookup k else none := by
  induction l with
  | nil => simp [List.lookup]
  | cons e t ih =>
    cases e with
    | mk k' v' =>
      simp only [List.filter_cons]
      by_cases hq : q k' = true
      · simp only [hq, if_true, List.lookup]
        cases hk : (k == k') with
        | true =>
          have : k = k' := by simpa using hk
          subst this
          simp [hq]
        | false => simpa using ih
      · have hq' : (q k') = false := by simpa using hq
        simp only [hq', Bool.false_eq_true, if_false, ih]
        cases hk : (k == k') with
        | true =>
          have hkk : k = k' := by simpa using hk
          subst hkk
          simp [hq']
        | false =>
          simp only [List.lookup, hk]

/-- The open sessions recorded for a public key. -/
def openSessions (st : StatsState) (pk : String) : List SessionRow :=
  st.sessions.filter (fun s => s.public_key == pk && s.is_active == 1)

/-- Consistency invariant of the session store with the in-memory
`_active_sessions` tracker. -/
def StatsInv (st : StatsState) : Prop :=
  (∀ s ∈ st.sessions, s.id < st.nextSessionId) ∧
  (st.sessions.map (fun s => s.id)).Nodup ∧
  (∀ pk sid, st.activeSessions.lookup pk = some sid →
    ∃ s ∈ st.sessions, s.id = sid ∧ s.public_key = pk ∧ s.is_active = 1) ∧
  (∀ s ∈ st.sessions, s.is_active = 1 →
    st.activeSessions.lookup s.public_key = some s.id) ∧
  (st.activeSessions.map (fun e => e.1)).Nodup

lemma length_le_one_of_const {l : List Nat} {c : Nat} (hnd : l.Nodup)
    (hc : ∀ x ∈ l, x = c) : l.length ≤ 1 := by
  match l with
  | [] => simp
  | [a] => simp
  | a :: b :: t =>
    have ha : a = c := hc a (List.mem_cons_self _ _)
    have hb : b = c := hc b (List.mem_cons_of_mem _ (List.mem_cons_self _ _))
    rw [List.nodup_cons] at hnd
    exact absurd (ha.trans hb.symm ▸ List.mem_cons_self b t) hnd.1

lemma statsInv_at_most_one_open {st : StatsState} (h : StatsInv st) (pk : String) :
    (openSessions st pk).length ≤ 1 := by
  obtain ⟨-, hnd, -, h4, -⟩ := h
  cases hlk : st.activeSessions.lookup pk with
  | none =>
    have : openSessions st pk = [] := by
      simp only [openSessions]
      rw [List.filter_eq_nil_iff]
      intro s hs hcond
      rw [Bool.and_eq_true, beq_iff_eq, beq_iff_eq] at hcond
      have := h4 s hs hcond.2
      rw [hcond.1, hlk] at this
      cases this
    simp [this]
  | some sid =>
    have hsub : List.Sublist ((openSessions st pk).map (fun s => s.id))
        (st.sessions.map (fun s => s.id)) :=
      List.Sublist.map _ (List.filter_sublist st.sessions)
    have hconst : ∀ x ∈ (openSessions st pk).map (fun s => s.id), x = sid := by
      intro x hx
      obtain ⟨s, hs, hsx⟩ := List.mem_map.mp hx
      have hs2 : s ∈ st.sessions.filter (fun s => s.public_key == pk && s.is_active == 1) := hs
      obtain ⟨hmem, hcond⟩ := List.mem_filter.mp hs2
      rw [Bool.and_eq_true, beq_iff_eq, beq_iff_eq] at hcond
      have hl := h4 s hmem hcond.2
      rw [hcond.1, hlk] at hl
      have hid : s.id = sid := by cases hl; rfl
      rw [← hsx, hid]
    have hlen := length_le_one_of_const (c := sid)
      (List.Nodup.sublist hsub hnd) hconst
    rw [List.length_map] at hlen
    exact hlen

lemma statsInv_of_eq {st st' : StatsState} (h1 : st'.sessions = st.sessions)
    (h2 : st'.activeSessions = st.activeSessions)
    (h3 : st'.nextSessionId = st.nextSessionId) (h : StatsInv st) : StatsInv st' := by
  unfold StatsInv at h ⊢
  rw [h1, h2, h3]
  exact h

lemma newSessionRow_fields (st : StatsState) (now : Nat) (pk : String)
    (info : PeerInfo) (userId : Nat) :
    (newSessionRow st now pk info userId).id = st.nextSessionId ∧
    (newSessionRow st now pk info userId).public_key = pk ∧
    (newSessionRow st now pk info userId).is_active = 1 ∧
    (newSessionRow st now pk info userId).start_time = now ∧
    (newSessionRow st now pk info userId).end_time = none :=
  ⟨rfl, rfl, rfl, rfl, rfl⟩

lemma statsInv_sessionOpen {st : StatsState} (now : Nat) (pk : String)
    (info : PeerInfo) (userId : Nat) (hInv : StatsInv st)
    (hlk : st.activeSessions.lookup pk = none) :
    StatsInv (sessionOpen st now pk info userId) := by
  obtain ⟨h1, h2, h3, h4, h5⟩ := hInv
  refine ⟨?_, ?_, ?_, ?_, ?_⟩
  · intro s hs
    simp only [sessionOpen] at hs ⊢
    rcases List.mem_append.mp hs with hold | hnew
    · exact lt_trans (h1 s hold) (Nat.lt_succ_self _)
    · rw [List.mem_singleton.mp hnew, (newSessionRow_fields st now pk info userId).1]
      omega
  · simp only [sessionOpen, List.map_append, List.map_cons, List.map_nil]
    rw [List.nodup_append]
    refine ⟨h2, List.nodup_singleton _, ?_⟩
    intro a ha hb
    obtain ⟨s, hs, hsid⟩ := List.mem_map.mp ha
    have hae : a = (newSessionRow st now pk info userId).id := List.mem_singleton.mp hb
    rw [(newSessionRow_fields st now pk info userId).1] at hae
    have := h1 s hs
    omega
  · intro k sid hk
    simp only [sessionOpen] at hk ⊢
    rw [lookup_append] at hk
    cases hacc : st.activeSessions.lookup k with
    | some v =>
      rw [hacc] at hk
      simp only [Option.orElse] at hk
      have hv : v = sid := by cases hk; rfl
      obtain ⟨s, hs, hprops⟩ := h3 k v hacc
      rw [hv] at hprops
      exact ⟨s, List.mem_append_left _ hs, hprops⟩
    | none =>
      rw [hacc] at hk
      simp only [Option.orElse, List.lookup] at hk
      cases hbeq : (k == pk) with
      | false => rw [hbeq] at hk; cases hk
      | true =>
        rw [hbeq] at hk
        have hsid : st.nextSessionId = sid := by cases hk; rfl
        have hkpk : k = pk := by simpa using hbeq
        subst hkpk
        refine ⟨newSessionRow st now k info userId,
          List.mem_append_right _ (List.mem_singleton_self _), ?_⟩
        obtain ⟨f1, f2, f3, -, -⟩ := newSessionRow_fields st now k info userId
        rw [f1, f2, f3]
        exact ⟨hsid, rfl, rfl⟩
  · intro s hs hact
    simp only [sessionOpen] at hs ⊢
    rw [lookup_append]
    rcases List.mem_append.mp hs with hold | hnew
    · have := h4 s hold hact
      rw [this]
      rfl
    · rw [List.mem_singleton.mp hnew]
      obtain ⟨f1, f2, -, -, -⟩ := newSessionRow_fields st now pk info userId
      rw [f1, f2, hlk]
      simp [List.lookup]
  · simp only [sessionOpen, List.map_append, List.map_cons, List.map_nil]
    rw [List.nodup_append]
    refine ⟨h5, List.nodup_singleton _, ?_⟩
    intro a ha hb
    have hapk : a = pk := List.mem_singleton.mp hb
    subst hapk
    exact (lookup_eq_none_iff st.activeSessions a).mp hlk ha

lemma statsInv_sessionUpdateBytes {st : StatsState} (pk : String) (a b : Nat)
    (hInv : StatsInv st) : StatsInv (sessionUpdateBytes st pk a b) := by
  obtain ⟨h1, h2, h3, h4, h5⟩ := hInv
  have hg : ∀ s : SessionRow,
      ((if st.activeSessions.lookup pk = some s.id then
        { s with bytes_rx := s.bytes_rx + a, bytes_tx := s.bytes_tx + b }
       else s) : SessionRow).id = s.id ∧
      ((if st.activeSessions.lookup pk = some s.id then
        { s with bytes_rx := s.bytes_rx + a, bytes_tx := s.bytes_tx + b }
       else s) : SessionRow).public_key = s.public_key ∧
      ((if st.activeSessions.lookup pk = some s.id then
        { s with bytes_rx := s.bytes_rx + a, bytes_tx := s.bytes_tx + b }
       else s) : SessionRow).is_active = s.is_active := by
    intro s
    split <;> exact ⟨rfl, rfl, rfl⟩
  refine ⟨?_, ?_, ?_, ?_, h5⟩
  · intro s hs
    simp only [sessionUpdateBytes] at hs
    obtain ⟨t, ht, hts⟩ := List.mem_map.mp hs
    rw [← hts, (hg t).1]
    exact h1 t ht
  · simp only [sessionUpdateBytes, List.map_map]
    have : ((fun s : SessionRow => s.id) ∘ (fun s =>
        if st.activeSessions.lookup pk = some s.id then
          { s with bytes_rx := s.bytes_rx + a, bytes_tx := s.bytes_tx + b }
        else s)) = fun s : SessionRow => s.id := by
      funext s
      exact (hg s).1
    rw [this]
    exact h2
  · intro k sid hk
    obtain ⟨s, hs, hprops⟩ := h3 k sid hk
    refine ⟨_, List.mem_map_of_mem _ hs, ?_⟩
    rw [(hg s).1, (hg s).2.1, (hg s).2.2]
    exact hprops
  · intro s hs hact
    simp only [sessionUpdateBytes] at hs
    obtain ⟨t, ht, hts⟩ := List.mem_map.mp hs
    have hkey : s.public_key = t.public_key := by rw [← hts]; exact (hg t).2.1
    have hid : s.id = t.id := by rw [← hts]; exact (hg t).1
    have hac : t.is_active = 1 := by
      rw [← (hg t).2.2, hts]
      exact hact
    have hl := h4 t ht hac
    show List.lookup s.public_key st.activeSessions = some s.id
    rw [hkey, hid]
    exact hl

lemma sessionRow_eq_of_id_eq {st : StatsState} (hInv : StatsInv st)
    {s t : SessionRow} (hs : s ∈ st.sessions) (ht : t ∈ st.sessions)
    (h : s.id = t.id) : s = t :=
  List.inj_on_of_nodup_map hInv.2.1 hs ht h

lemma statsInv_closePhase (now : Nat) {st : StatsState} (conn : List String)
    (hInv : StatsInv st) : StatsInv (statsClosePhase now st conn) := by
  obtain ⟨h1, h2, h3, h4, h5⟩ := hInv
  have hg : ∀ s : SessionRow,
      ((if (st.activeSessions.filter (fun e => !(conn.contains e.1))).any
          (fun e => e.2 == s.id) then
        { s with end_time := some now, is_active := 0 }
       else s) : SessionRow).id = s.id ∧
      ((if (st.activeSessions.filter (fun e => !(conn.contains e.1))).any
          (fun e => e.2 == s.id) then
        { s with end_time := some now, is_active := 0 }
       else s) : SessionRow).public_key = s.public_key := by
    intro s
    split <;> exact ⟨rfl, rfl⟩
  have hopen_entry : ∀ (k : String) (sid : Nat),
      st.activeSessions.lookup k = some sid →
      ∀ e ∈ st.activeSessions.filter (fun e => !(conn.contains e.1)),
        e.2 = sid → (conn.contains k) = false := by
    intro k sid hlk e hef hesid
    obtain ⟨hemem, hecond⟩ := List.mem_filter.mp hef
    obtain ⟨s, hs, hsid, hskey, hsact⟩ := h3 k sid hlk
    have hle : st.activeSessions.lookup e.1 = some e.2 := by
      have : (e.1, e.2) ∈ st.activeSessions := by simpa using hemem
      exact lookup_of_mem_keys_nodup h5 this
    obtain ⟨s2, hs2, hsid2, hskey2, hsact2⟩ := h3 e.1 e.2 hle
    have hids : s2.id = s.id := by rw [hsid2, hesid, hsid]
    have hss : s2 = s := List.inj_on_of_nodup_map h2 hs2 hs hids
    have hek : e.1 = k := by rw [← hskey2, hss, hskey]
    rw [← hek]
    simpa using hecond
  refine ⟨?_, ?_, ?_, ?_, ?_⟩
  · intro s hs
    simp only [statsClosePhase] at hs ⊢
    obtain ⟨t, ht, hts⟩ := List.mem_map.mp hs
    rw [← hts, (hg t).1]
    exact h1 t ht
  · simp only [statsClosePhase, List.map_map]
    have heq : ((fun s : SessionRow => s.id) ∘ (fun s =>
        if (st.activeSessions.filter (fun e => !(conn.contains e.1))).any
            (fun e => e.2 == s.id) then
          { s with end_time := some now, is_active := 0 }
        else s)) = fun s : SessionRow => s.id := by
      funext s
      exact (hg s).1
    rw [heq]
    exact h2
  · intro k sid hk
    simp only [statsClosePhase] at hk ⊢
    rw [lookup_filter_keys] at hk
    by_cases hc : conn.contains k = true
    · rw [if_pos hc] at hk
      obtain ⟨s, hs, hsid, hskey, hsact⟩ := h3 k sid hk
      have hnoclose : ((st.activeSessions.filter (fun e => !(conn.contains e.1))).any
          (fun e => e.2 == s.id)) = false := by
        rw [Bool.eq_false_iff]
        intro hany
        obtain ⟨e, hef, hebeq⟩ := List.any_eq_true.mp hany
        have hesid : e.2 = s.id := by simpa using hebeq
        have := hopen_entry k sid hk e hef (by rw [hesid, hsid])
        rw [this] at hc
        cases hc
      refine ⟨s, List.mem_map.mpr ⟨s, hs, ?_⟩, hsid, hskey, hsact⟩
      rw [hnoclose]
      simp
    · rw [if_neg hc] at hk
      cases hk
  · intro s' hs' hact'
    simp only [statsClosePhase] at hs' ⊢
    obtain ⟨t, ht, hts⟩ := List.mem_map.mp hs'
    cases hcond : ((st.activeSessions.filter (fun e => !(conn.contains e.1))).any
        (fun e => e.2 == t.id)) with
    | true =>
      rw [hcond] at hts
      have hts2 : ({ t with end_time := some now, is_active := 0 } : SessionRow) = s' := by
        simpa using hts
      rw [← hts2] at hact'
      cases hact'
    | false =>
      rw [hcond] at hts
      have hts2 : t = s' := by simpa using hts
      subst hts2
      have hl := h4 t ht hact'
      rw [lookup_filter_keys]
      have hc : conn.contains t.public_key = true := by
        by_contra hcf
        have hcf' : conn.contains t.public_key = false := by
          cases hx : conn.contains t.public_key with
          | false => rfl
          | true => exact absurd hx hcf
        have hmem : (t.public_key, t.id) ∈
            st.activeSessions.filter (fun e => !(conn.contains e.1)) := by
          rw [List.mem_filter]
          refine ⟨mem_of_lookup_eq_some hl, ?_⟩
          rw [Bool.not_eq_true']
          exact hcf'
        have hany : ((st.activeSessions.filter (fun e => !(conn.contains e.1))).any
            (fun e => e.2 == t.id)) = true :=
          List.any_eq_true.mpr ⟨(t.public_key, t.id), hmem, by simp⟩
        rw [hany] at hcond
        cases hcond
      rw [if_pos hc]
      exact hl
  · simp only [statsClosePhase]
    have hsub : List.Sublist
        ((st.activeSessions.filter (fun e => conn.contains e.1)).map (fun e => e.1))
        (st.activeSessions.map (fun e => e.1)) :=
      List.Sublist.map _ (List.filter_sublist st.activeSessions)
    exact List.Nodup.sublist hsub h5

lemma users_keys_map_statsUserUpdate (l : List DbUser) (pk : String)
    (info : PeerInfo) (a b : Nat) :
    (l.map (statsUserUpdate pk info a b)).map (fun u => u.public_key) =
      l.map (fun u => u.public_key) := by
  rw [List.map_map]
  have : ((fun u : DbUser => u.public_key) ∘ statsUserUpdate pk info a b) =
      fun u : DbUser => u.public_key := by
    funext u
    exact statsUserUpdate_key pk info a b u
  rw [this]

/-- Shape analysis of one `statsPeerStep`: it either leaves sessions and
the tracker untouched, or updates the bytes of the tracked session of a
connected peer, or opens a session for a connected untracked peer. -/
lemma statsPeerStep_cases (now : Nat) (acc : StatsState × List String)
    (e : String × PeerInfo) :
    (statsPeerStep now acc e).1.users.map (fun u => u.public_key) =
      acc.1.users.map (fun u => u.public_key) ∧
    (((statsPeerStep now acc e).1.sessions = acc.1.sessions ∧
      (statsPeerStep now acc e).1.activeSessions = acc.1.activeSessions ∧
      (statsPeerStep now acc e).1.nextSessionId = acc.1.nextSessionId ∧
      (statsPeerStep now acc e).2 = acc.2) ∨
     (e.2.connected = true ∧ (acc.1.activeSessions.lookup e.1).isSome = true ∧
      (∃ a b, (statsPeerStep now acc e).1.sessions =
        acc.1.sessions.map (fun s =>
          if acc.1.activeSessions.lookup e.1 = some s.id then
            { s with bytes_rx := s.bytes_rx + a, bytes_tx := s.bytes_tx + b }
          else s)) ∧
      (statsPeerStep now acc e).1.activeSessions = acc.1.activeSessions ∧
      (statsPeerStep now acc e).1.nextSessionId = acc.1.nextSessionId ∧
      (statsPeerStep now acc e).2 = acc.2 ++ [e.1]) ∨
     (e.2.connected = true ∧ acc.1.activeSessions.lookup e.1 = none ∧
      (∃ uid, (statsPeerStep now acc e).1.sessions =
        acc.1.sessions ++ [newSessionRow acc.1 now e.1 e.2 uid]) ∧
      (statsPeerStep now acc e).1.activeSessions =
        acc.1.activeSessions ++ [(e.1, acc.1.nextSessionId)] ∧
      (statsPeerStep now acc e).1.nextSessionId = acc.1.nextSessionId + 1 ∧
      (statsPeerStep now acc e).2 = acc.2 ++ [e.1])) := by
  refine ⟨?_, ?_⟩
  · rcases statsPeerStep_users now acc e with h | ⟨a, b, h⟩
    · rw [h]
    · rw [h]
      exact users_keys_map_statsUserUpdate _ _ _ _ _
  · simp only [statsPeerStep]
    cases hfind : acc.1.users.find? (fun u => u.public_key == e.1) with
    | none =>
      exact Or.inl ⟨rfl, rfl, rfl, rfl⟩
    | some u =>
      simp only [hfind]
      cases hconn : e.2.connected with
      | false =>
        simp only [hconn, Bool.false_and, Bool.false_eq_true, if_false]
        refine Or.inl ⟨?_, ?_, ?_, ?_⟩ <;> trivial
      | true =>
        cases hlkA : acc.1.activeSessions.lookup e.1 with
        | none =>
          simp only [hconn, hlkA, Option.isNone_none, Bool.true_and,
            Option.isSome_none, Bool.and_true, Bool.and_false,
            Bool.false_eq_true, if_true, if_false]
          refine Or.inr (Or.inr ⟨?_, ?_, ⟨u.id, ?_⟩, ?_, ?_, ?_⟩) <;> trivial
        | some sid =>
          simp only [hconn, hlkA, Option.isNone_some, Bool.true_and,
            Option.isSome_some, Bool.and_true, Bool.and_false,
            Bool.false_eq_true, if_false, if_true]
          refine Or.inr (Or.inl ⟨?_, ?_,
            ⟨(if ((acc.1.lastStats.lookup e.1).getD (0, 0)).1 ≤ e.2.transfer_rx then
                e.2.transfer_rx - ((acc.1.lastStats.lookup e.1).getD (0, 0)).1
              else e.2.transfer_rx),
             (if ((acc.1.lastStats.lookup e.1).getD (0, 0)).2 ≤ e.2.transfer_tx then
                e.2.transfer_tx - ((acc.1.lastStats.lookup e.1).getD (0, 0)).2
              else e.2.transfer_tx), ?_⟩, ?_, ?_, ?_⟩) <;>
            first
              | trivial
              | simp only [sessionUpdateBytes, hlkA]

/-- Evolution of the `current_connected` accumulator over one step. -/
lemma statsPeerStep_conn (now : Nat) (acc : StatsState × List String)
    (e : String × PeerInfo) :
    (statsPeerStep now acc e).2 = acc.2 ++
      (if e.2.connected && acc.1.users.any (fun u => u.public_key == e.1) then
        [e.1] else []) := by
  simp only [statsPeerStep]
  cases hfind : acc.1.users.find? (fun u => u.public_key == e.1) with
  | none =>
    have hany : acc.1.users.any (fun u => u.public_key == e.1) = false := by
      rw [List.any_eq_false]
      intro x hx
      rw [List.find?_eq_none] at hfind
      exact fun hc => hfind x hx hc
    simp [hany]
  | some u =>
    simp only [hfind]
    have hp2 : (u.public_key == e.1) = true := by
      have h2 := List.find?_some hfind
      simpa using h2
    have hany : acc.1.users.any (fun u => u.public_key == e.1) = true :=
      List.any_eq_true.mpr ⟨u, List.mem_of_find?_eq_some hfind, hp2⟩
    cases hconn : e.2.connected with
    | false => simp [hconn, hany]
    | true =>
      simp only [hconn, hany, Bool.and_self, if_true]

/-- Invariant carried through the per-peer loop of one tick: `st0` is the
state at tick entry, `now` the tick timestamp, `acc` the running
state/`current_connected` pair. -/
structure LoopInv (st0 : StatsState) (now : Nat) (acc : StatsState × List String) :
    Prop where
  inv : StatsInv acc.1
  keys : acc.1.users.map (fun u => u.public_key) = st0.users.map (fun u => u.public_key)
  nextLe : st0.nextSessionId ≤ acc.1.nextSessionId
  oldTracked : ∀ k, (st0.activeSessions.lookup k).isSome = true →
    acc.1.activeSessions.lookup k = st0.activeSessions.lookup k
  newTracked : ∀ k, st0.activeSessions.lookup k = none →
    acc.1.activeSessions.lookup k = none ∨
      ∃ sid, acc.1.activeSessions.lookup k = some sid ∧ st0.nextSessionId ≤ sid
  connTracked : ∀ k ∈ acc.2, (acc.1.activeSessions.lookup k).isSome = true
  newRows : ∀ s ∈ acc.1.sessions, st0.nextSessionId ≤ s.id →
    s.public_key ∈ acc.2 ∧ st0.activeSessions.lookup s.public_key = none ∧
    s.is_active = 1 ∧ s.start_time = now ∧ s.end_time = none

lemma loopInv_init (st0 : StatsState) (now : Nat) (hInv : StatsInv st0) :
    LoopInv st0 now (st0, []) := by
  refine ⟨hInv, rfl, le_refl _, fun k _ => rfl, fun k hk => Or.inl hk,
    fun k hk => absurd hk (List.not_mem_nil k), ?_⟩
  intro s hs hid
  have := hInv.1 s hs
  omega

lemma statsPeerStep_loopInv {st0 : StatsState} {now : Nat}
    {acc : StatsState × List String} (e : String × PeerInfo)
    (h : LoopInv st0 now acc) : LoopInv st0 now (statsPeerStep now acc e) := by
  obtain ⟨hkeys, hcase⟩ := statsPeerStep_cases now acc e
  rcases hcase with ⟨hs, ha, hn, hc⟩ | ⟨hconn, hsome, ⟨a, b, hs⟩, ha, hn, hc⟩ |
    ⟨hconn, hnone, ⟨uid, hs⟩, ha, hn, hc⟩
  · refine ⟨statsInv_of_eq hs ha hn h.inv, hkeys.trans h.keys, ?_, ?_, ?_, ?_, ?_⟩
    · rw [hn]; exact h.nextLe
    · intro k hk; rw [ha]; exact h.oldTracked k hk
    · intro k hk; rw [ha]; exact h.newTracked k hk
    · intro k hk; rw [hc] at hk; rw [ha]; exact h.connTracked k hk
    · intro s hsmem hid
      rw [hs] at hsmem
      rw [hc]
      exact h.newRows s hsmem hid
  · have hInv2 : StatsInv (statsPeerStep now acc e).1 := by
      refine statsInv_of_eq ?_ ?_ ?_ (statsInv_sessionUpdateBytes e.1 a b h.inv)
      · rw [hs]; rfl
      · rw [ha]; rfl
      · rw [hn]; rfl
    refine ⟨hInv2, hkeys.trans h.keys, ?_, ?_, ?_, ?_, ?_⟩
    · rw [hn]; exact h.nextLe
    · intro k hk; rw [ha]; exact h.oldTracked k hk
    · intro k hk; rw [ha]; exact h.newTracked k hk
    · intro k hk
      rw [hc] at hk
      rw [ha]
      rcases List.mem_append.mp hk with hk1 | hk2
      · exact h.connTracked k hk1
      · rw [List.mem_singleton.mp hk2]
        exact hsome
    · intro s hsmem hid
      rw [hs] at hsmem
      obtain ⟨t, ht, hts⟩ := List.mem_map.mp hsmem
      have hfields : s.public_key = t.public_key ∧ s.is_active = t.is_active ∧
          s.start_time = t.start_time ∧ s.end_time = t.end_time ∧ s.id = t.id := by
        rw [← hts]
        split <;> exact ⟨rfl, rfl, rfl, rfl, rfl⟩
      have hidt : st0.nextSessionId ≤ t.id := by rw [← hfields.2.2.2.2]; exact hid
      obtain ⟨q1, q2, q3, q4, q5⟩ := h.newRows t ht hidt
      rw [hc, hfields.1, hfields.2.1, hfields.2.2.1, hfields.2.2.2.1]
      exact ⟨List.mem_append_left _ q1, q2, q3, q4, q5⟩
  · have hInv2 : StatsInv (statsPeerStep now acc e).1 := by
      refine statsInv_of_eq ?_ ?_ ?_
        (statsInv_sessionOpen now e.1 e.2 uid h.inv hnone)
      · rw [hs]; rfl
      · rw [ha]; rfl
      · rw [hn]; rfl
    refine ⟨hInv2, hkeys.trans h.keys, ?_, ?_, ?_, ?_, ?_⟩
    · rw [hn]; exact le_trans h.nextLe (Nat.le_succ _)
    · intro k hk
      rw [ha, lookup_append]
      have hk2 := h.oldTracked k hk
      rw [hk2]
      obtain ⟨v, hv⟩ := Option.isSome_iff_exists.mp hk
      rw [hv]
      rfl
    · intro k hk0
      rw [ha, lookup_append]
      rcases h.newTracked k hk0 with hnone2 | ⟨sid, hsid, hle⟩
      · rw [hnone2]
        simp only [Option.orElse, List.lookup]
        cases hbeq : (k == e.1) with
        | true => exact Or.inr ⟨acc.1.nextSessionId, rfl, h.nextLe⟩
        | false => exact Or.inl rfl
      · rw [hsid]
        exact Or.inr ⟨sid, rfl, hle⟩
    · intro k hk
      rw [hc] at hk
      rw [ha, lookup_append]
      rcases List.mem_append.mp hk with hk1 | hk2
      · have := h.connTracked k hk1
        obtain ⟨v, hv⟩ := Option.isSome_iff_exists.mp this
        rw [hv]
        rfl
      · rw [List.mem_singleton.mp hk2, hnone]
        simp [List.lookup]
    · intro s hsmem hid
      rw [hs] at hsmem
      rw [hc]
      rcases List.mem_append.mp hsmem with hold | hnew
      · obtain ⟨q1, q2, q3, q4, q5⟩ := h.newRows s hold hid
        exact ⟨List.mem_append_left _ q1, q2, q3, q4, q5⟩
      · rw [List.mem_singleton.mp hnew]
        obtain ⟨f1, f2, f3, f4, f5⟩ := newSessionRow_fields acc.1 now e.1 e.2 uid
        rw [f2, f3, f4, f5]
        have hst0 : st0.activeSessions.lookup e.1 = none := by
          cases hx : st0.activeSessions.lookup e.1 with
          | none => rfl
          | some v =>
            have := h.oldTracked e.1 (by rw [hx]; rfl)
            rw [hx] at this
            rw [this] at hnone
            cases hnone
        exact ⟨List.mem_append_right _ (List.mem_singleton_self _), hst0, rfl, rfl, rfl⟩

lemma foldl_statsPeerStep_loopInv (st0 : StatsState) (now : Nat) :
    ∀ (peers : List (String × PeerInfo)) (acc : StatsState × List String),
      LoopInv st0 now acc →
      LoopInv st0 now (peers.foldl (statsPeerStep now) acc) := by
  intro peers
  induction peers with
  | nil => intro acc h; exact h
  | cons e t ih =>
    intro acc h
    exact ih _ (statsPeerStep_loopInv e h)

lemma any_key_eq {l1 l2 : List DbUser}
    (h : l1.map (fun u => u.public_key) = l2.map (fun u => u.public_key))
    (pk : String) :
    l1.any (fun u => u.public_key == pk) = l2.any (fun u => u.public_key == pk) := by
  have key : ∀ l : List DbUser,
      (l.map (fun u => u.public_key)).any (fun k => k == pk) =
        l.any (fun u => u.public_key == pk) := by
    intro l
    induction l with
    | nil => rfl
    | cons u t ih => simp only [List.map_cons, List.any_cons, ih]
  rw [← key l1, ← key l2, h]

lemma foldl_statsPeerStep_conn (st0 : StatsState) (now : Nat) :
    ∀ (peers : List (String × PeerInfo)) (acc : StatsState × List String),
      acc.1.users.map (fun u => u.public_key) = st0.users.map (fun u => u.public_key) →
      (peers.foldl (statsPeerStep now) acc).2 = acc.2 ++
        (peers.filter (fun e =>
          e.2.connected && st0.users.any (fun u => u.public_key == e.1))).map
          (fun e => e.1) := by
  intro peers
  induction peers with
  | nil => intro acc _; simp
  | cons e t ih =>
    intro acc hk
    simp only [List.foldl_cons, List.filter_cons]
    have hkeys2 : (statsPeerStep now acc e).1.users.map (fun u => u.public_key) =
        st0.users.map (fun u => u.public_key) :=
      (statsPeerStep_cases now acc e).1.trans hk
    rw [ih _ hkeys2, statsPeerStep_conn, any_key_eq hk e.1]
    cases hcond : (e.2.connected && st0.users.any (fun u => u.public_key == e.1)) with
    | true => simp
    | false => simp

/-- A peer is live in a tick iff the dump reports it connected and it is
registered (its public key has a `users` row). -/
def tickLive (st : StatsState) (peers : List (String × PeerInfo)) (pk : String) :
    Prop :=
  (∃ e ∈ peers, e.1 = pk ∧ e.2.connected = true) ∧
  (∃ u ∈ st.users, u.public_key = pk)

lemma conn_mem_iff_tickLive (st0 : StatsState) (peers : List (String × PeerInfo))
    (pk : String) :
    (pk ∈ (peers.filter (fun e =>
      e.2.connected && st0.users.any (fun u => u.public_key == e.1))).map
        (fun e => e.1)) ↔ tickLive st0 peers pk := by
  constructor
  · intro hmem
    obtain ⟨e, hef, he1⟩ := List.mem_map.mp hmem
    obtain ⟨hep, hcond⟩ := List.mem_filter.mp hef
    rw [Bool.and_eq_true] at hcond
    obtain ⟨u, hu, hubeq⟩ := List.any_eq_true.mp hcond.2
    refine ⟨⟨e, hep, he1, hcond.1⟩, u, hu, ?_⟩
    rw [← he1]
    simpa using hubeq
  · rintro ⟨⟨e, hep, he1, hec⟩, u, hu, huk⟩
    refine List.mem_map.mpr ⟨e, List.mem_filter.mpr ⟨hep, ?_⟩, he1⟩
    rw [Bool.and_eq_true]
    refine ⟨hec, List.any_eq_true.mpr ⟨u, hu, ?_⟩⟩
    rw [he1]
    simpa using huk

lemma openSessions_eq_nil_iff {st : StatsState} (hInv : StatsInv st) (pk : String) :
    openSessions st pk = [] ↔ st.activeSessions.lookup pk = none := by
  constructor
  · intro hnil
    cases hlk : st.activeSessions.lookup pk with
    | none => rfl
    | some sid =>
      obtain ⟨s, hs, hsid, hskey, hsact⟩ := hInv.2.2.1 pk sid hlk
      have hmem : s ∈ openSessions st pk := by
        rw [openSessions, List.mem_filter]
        refine ⟨hs, ?_⟩
        rw [Bool.and_eq_true, beq_iff_eq, beq_iff_eq]
        exact ⟨hskey, hsact⟩
      rw [hnil] at hmem
      cases hmem
  · intro hlk
    rw [openSessions, List.filter_eq_nil_iff]
    intro s hs hcond
    rw [Bool.and_eq_true, beq_iff_eq, beq_iff_eq] at hcond
    have := hInv.2.2.2.1 s hs hcond.2
    rw [hcond.1, hlk] at this
    cases this

lemma mem_openSessions_iff {st : StatsState} {pk : String} {s : SessionRow} :
    s ∈ openSessions st pk ↔
      s ∈ st.sessions ∧ s.public_key = pk ∧ s.is_active = 1 := by
  rw [openSessions, List.mem_filter, Bool.and_eq_true, beq_iff_eq, beq_iff_eq]

lemma closePhase_sessions (now : Nat) (st : StatsState) (conn : List String) :
    (statsClosePhase now st conn).sessions = st.sessions.map (fun s =>
      if (st.activeSessions.filter (fun e => !(conn.contains e.1))).any
          (fun e => e.2 == s.id) then
        { s with end_time := some now, is_active := 0 }
      else s) := rfl

lemma closeFun_fields (now : Nat) (st : StatsState) (conn : List String)
    (t : SessionRow) :
    ((if (st.activeSessions.filter (fun e => !(conn.contains e.1))).any
        (fun e => e.2 == t.id) then
      { t with end_time := some now, is_active := 0 }
     else t) : SessionRow).id = t.id ∧
    ((if (st.activeSessions.filter (fun e => !(conn.contains e.1))).any
        (fun e => e.2 == t.id) then
      { t with end_time := some now, is_active := 0 }
     else t) : SessionRow).public_key = t.public_key := by
  split <;> exact ⟨rfl, rfl⟩

/-- C6: starting from a consistent state, one poller tick preserves the
session-store invariant, keeps at most one open session per peer, opens a
new session record exactly for peers that are live in the tick and had no
open session, and closes the open session (with `end_time = now`,
`is_active = 0`) exactly for peers that had one and are not live in the
tick. -/
theorem session_open_close_exact
    (st : StatsState) (now : Nat) (peers : List (String × PeerInfo)) (pk : String)
    (hInv : StatsInv st) :
    StatsInv (sync_stats_to_db st now peers) ∧
    (openSessions (sync_stats_to_db st now peers) pk).length ≤ 1 ∧
    ((∃ s2 ∈ (sync_stats_to_db st now peers).sessions,
        s2.public_key = pk ∧ st.nextSessionId ≤ s2.id) ↔
      (tickLive st peers pk ∧ openSessions st pk = [])) ∧
    ((∃ s ∈ st.sessions, s.public_key = pk ∧ s.is_active = 1 ∧
        ∃ s2 ∈ (sync_stats_to_db st now peers).sessions,
          s2.id = s.id ∧ s2.is_active = 0 ∧ s2.end_time = some now) ↔
      (openSessions st pk ≠ [] ∧ ¬ tickLive st peers pk)) := by
  have hL : LoopInv st now (peers.foldl (statsPeerStep now) (st, [])) :=
    foldl_statsPeerStep_loopInv st now peers (st, []) (loopInv_init st now hInv)
  set F := peers.foldl (statsPeerStep now) (st, []) with hF
  have hsync : sync_stats_to_db st now peers = statsClosePhase now F.1 F.2 := rfl
  have hconn2 : F.2 = (peers.filter (fun e =>
      e.2.connected && st.users.any (fun u => u.public_key == e.1))).map
      (fun e => e.1) := by
    have h := foldl_statsPeerStep_conn st now peers (st, []) rfl
    simpa using h
  have hInv' : StatsInv (sync_stats_to_db st now peers) := by
    rw [hsync]
    exact statsInv_closePhase now F.2 hL.inv
  refine ⟨hInv', statsInv_at_most_one_open hInv' pk, ?_, ?_⟩
  · constructor
    · rintro ⟨s2, hs2, hkey2, hid2⟩
      rw [hsync, closePhase_sessions] at hs2
      obtain ⟨t, ht, hts⟩ := List.mem_map.mp hs2
      obtain ⟨hfid, hfkey⟩ := closeFun_fields now F.1 F.2 t
      have htkey : t.public_key = pk := by rw [← hfkey, hts, hkey2]
      have htid : st.nextSessionId ≤ t.id := by rw [← hfid, hts]; exact hid2
      obtain ⟨q1, q2, -, -, -⟩ := hL.newRows t ht htid
      rw [htkey] at q1 q2
      rw [hconn2] at q1
      exact ⟨(conn_mem_iff_tickLive st peers pk).mp q1,
        (openSessions_eq_nil_iff hInv pk).mpr q2⟩
    · rintro ⟨hlive, hnil⟩
      have hpkconn : pk ∈ F.2 := by
        rw [hconn2]
        exact (conn_mem_iff_tickLive st peers pk).mpr hlive
      have hlknone : st.activeSessions.lookup pk = none :=
        (openSessions_eq_nil_iff hInv pk).mp hnil
      have hsome := hL.connTracked pk hpkconn
      rcases hL.newTracked pk hlknone with hn1 | ⟨sid, hsid, hle⟩
      · rw [hn1] at hsome; cases hsome
      · obtain ⟨t, ht, htid, htkey, -⟩ := hL.inv.2.2.1 pk sid hsid
        refine ⟨(if (F.1.activeSessions.filter (fun e => !(F.2.contains e.1))).any
            (fun e => e.2 == t.id) then
          { t with end_time := some now, is_active := 0 }
         else t), ?_, ?_, ?_⟩
        · rw [hsync, closePhase_sessions]
          exact List.mem_map_of_mem _ ht
        · rw [(closeFun_fields now F.1 F.2 t).2]
          exact htkey
        · rw [(closeFun_fields now F.1 F.2 t).1, htid]
          exact hle
  · constructor
    · rintro ⟨s, hs, hskey, hsact, s2, hs2, hs2id, hs2act, hs2end⟩
      refine ⟨?_, ?_⟩
      · exact List.ne_nil_of_mem (mem_openSessions_iff.mpr ⟨hs, hskey, hsact⟩)
      · intro hlive
        have hpkconn : pk ∈ F.2 := by
          rw [hconn2]
          exact (conn_mem_iff_tickLive st peers pk).mpr hlive
        have hlk : st.activeSessions.lookup pk = some s.id := by
          have := hInv.2.2.2.1 s hs hsact
          rw [hskey] at this
          exact this
        have hlk1 : F.1.activeSessions.lookup pk = some s.id := by
          rw [hL.oldTracked pk (by rw [hlk]; rfl)]
          exact hlk
        rw [hsync, closePhase_sessions] at hs2
        obtain ⟨t, ht, hts⟩ := List.mem_map.mp hs2
        have htid : t.id = s.id := by
          rw [← (closeFun_fields now F.1 F.2 t).1, hts, hs2id]
        obtain ⟨t', ht', ht'id, ht'key, ht'act⟩ := hL.inv.2.2.1 pk s.id hlk1
        have htt' : t = t' :=
          sessionRow_eq_of_id_eq hL.inv ht ht' (by rw [htid, ht'id])
        cases hcond : ((F.1.activeSessions.filter (fun e => !(F.2.contains e.1))).any
            (fun e => e.2 == t.id)) with
        | false =>
          rw [hcond] at hts
          have hts2 : t = s2 := by simpa using hts
          rw [← hts2] at hs2act
          rw [htt'] at hs2act
          rw [ht'act] at hs2act
          cases hs2act
        | true =>
          obtain ⟨e, hef, hebeq⟩ := List.any_eq_true.mp hcond
          obtain ⟨hemem, hecond⟩ := List.mem_filter.mp hef
          have heid : e.2 = t.id := by simpa using hebeq
          have hle : F.1.activeSessions.lookup e.1 = some e.2 :=
            lookup_of_mem_keys_nodup hL.inv.2.2.2.2 (by
              cases e with
              | mk k v => exact hemem)
          obtain ⟨w, hw, hwid, hwkey, -⟩ := hL.inv.2.2.1 e.1 e.2 hle
          have hwt : w = t' := sessionRow_eq_of_id_eq hL.inv hw ht'
            (by rw [hwid, heid, htid, ht'id])
          have he1 : e.1 = pk := by rw [← hwkey, hwt, ht'key]
          have : F.2.contains pk = true := (contains_mem_iff F.2 pk).mpr hpkconn
          rw [he1] at hecond
          rw [this] at hecond
          cases hecond
    · rintro ⟨hne, hnlive⟩
      obtain ⟨s, hsopen⟩ := List.exists_mem_of_ne_nil _ hne
      obtain ⟨hs, hskey, hsact⟩ := mem_openSessions_iff.mp hsopen
      have hnconn : pk ∉ F.2 := by
        intro hmem
        rw [hconn2] at hmem
        exact hnlive ((conn_mem_iff_tickLive st peers pk).mp hmem)
      have hlk : st.activeSessions.lookup pk = some s.id := by
        have := hInv.2.2.2.1 s hs hsact
        rw [hskey] at this
        exact this
      have hlk1 : F.1.activeSessions.lookup pk = some s.id := by
        rw [hL.oldTracked pk (by rw [hlk]; rfl)]
        exact hlk
      obtain ⟨t, ht, htid, htkey, -⟩ := hL.inv.2.2.1 pk s.id hlk1
      have hccontains : F.2.contains pk = false := by
        cases hx : F.2.contains pk with
        | false => rfl
        | true => exact absurd ((contains_mem_iff F.2 pk).mp hx) hnconn
      have hcond : ((F.1.activeSessions.filter (fun e => !(F.2.contains e.1))).any
          (fun e => e.2 == t.id)) = true := by
        refine List.any_eq_true.mpr ⟨(pk, s.id), ?_, ?_⟩
        · rw [List.mem_filter]
          refine ⟨mem_of_lookup_eq_some hlk1, ?_⟩
          rw [Bool.not_eq_true']
          exact hccontains
        · rw [beq_iff_eq, htid]
      refine ⟨s, hs, hskey, hsact,
        { t with end_time := some now, is_active := 0 }, ?_, ?_, rfl, rfl⟩
      · rw [hsync, closePhase_sessions]
        refine List.mem_map.mpr ⟨t, ht, ?_⟩
        rw [hcond]
        simp
      · exact htid

lemma statsInv_nil (users : List DbUser) (ls : List (String × Nat × Nat)) (n : Nat) :
    StatsInv ⟨users, [], ls, [], n⟩ := by
  refine ⟨?_, ?_, ?_, ?_, ?_⟩
  · intro s hs; cases hs
  · simp
  · intro pk sid hk; cases hk
  · intro s hs; cases hs
  · simp

/-- Witness for C6: the tick invariant applied to a concrete one-user
store observing one connected peer. -/
theorem session_open_close_exact_witness :
    (openSessions (sync_stats_to_db ⟨[⟨1, "K", 0, 0, none, none⟩], [], [], [], 1⟩ 42
      [("K", ⟨some "198.51.100.7:51820", some 1000, 5, 6, true⟩)]) "K").length ≤ 1 :=
  (session_open_close_exact ⟨[⟨1, "K", 0, 0, none, none⟩], [], [], [], 1⟩ 42
    [("K", ⟨some "198.51.100.7:51820", some 1000, 5, 6, true⟩)] "K"
    (statsInv_nil _ _ _)).2.1

/-! ## Configuration file codec (`app/wg.py:parse_config` / `build_config`)

Configuration text is modelled as `List Char`.  `str.strip()` is the
two-sided drop of Python whitespace.  `re.split(r'(?=\[(?:Interface|Peer)\])', s)`
splits the text immediately before every position where one of the two
section headers starts (a zero-width match), yielding the segment before
the first header (possibly empty) followed by one segment per header
occurrence; `splitAux` scans the text reproducing exactly that.
`re.search(r'PublicKey\s*=\s*(\S+)', s)` is the leftmost position whose
suffix matches the pattern; `searchPublicKey` scans positions left to
right and `matchPkAt` checks the pattern at one position. -/

/-- Python whitespace (`str.strip()` default set, `\s` for ASCII). -/
def isSpaceChar (c : Char) : Bool :=
  c == ' ' || c == '\t' || c == '\n' || c == '\r' ||
  c == Char.ofNat 11 || c == Char.ofNat 12

/-- Left part of `str.strip()`. -/
def lstrip (s : List Char) : List Char := s.dropWhile isSpaceChar

/-- Right part of `str.strip()`. -/
def rstrip (s : List Char) : List Char := (s.reverse.dropWhile isSpaceChar).reverse

/-- Python `str.strip()`. -/
def pyStrip (s : List Char) : List Char := rstrip (lstrip s)

def hdrInterface : List Char := "[Interface]".data

def hdrPeer : List Char := "[Peer]".data

/-- Does the zero-width lookahead `(?=\[(?:Interface|Peer)\])` match at
this position? -/
def isHdrAt (cs : List Char) : Bool :=
  hdrInterface.isPrefixOf cs || hdrPeer.isPrefixOf cs

/-- The scan of `re.split` with a zero-width pattern: cut before every
match position. -/
def splitAux : List Char → List Char → List (List Char)
  | [], acc => [acc.reverse]
  | c :: rest, acc =>
    if isHdrAt (c :: rest) then acc.reverse :: splitAux rest [c]
    else splitAux rest (c :: acc)

def reSplitSections (s : List Char) : List (List Char) := splitAux s []

def pkPat : List Char := "PublicKey".data

/-- Match `PublicKey\s*=\s*(\S+)` at one position, returning group 1. -/
def matchPkAt (cs : List Char) : Option (List Char) :=
  if pkPat.isPrefixOf cs then
    let rest1 := (cs.drop pkPat.length).dropWhile isSpaceChar
    match rest1 with
    | '=' :: rest2 =>
      let tok := (rest2.dropWhile isSpaceChar).takeWhile (fun c => !(isSpaceChar c))
      if tok.isEmpty then none else some tok
    | _ => none
  else none

/-- `re.search` for the public-key pattern: leftmost matching position. -/
def searchPublicKey : List Char → Option (List Char)
  | [] => none
  | c :: rest =>
    match matchPkAt (c :: rest) with
    | some tok => some tok
    | none => searchPublicKey rest

/-- A peer dict produced by `parse_config`: the raw block and the
extracted `PublicKey` when the pattern matched. -/
structure PeerSec where
  raw : List Char
  public_key : Option (List Char)
  deriving Repr, DecidableEq

/-- `app/wg.py:parse_config`: split the stripped content before each
section header, skip empty segments, keep the last `[Interface]` segment
as the interface block, collect `[Peer]` segments in order.  (Peer dicts
carry `raw` always; `build_config`'s structured-data branch, used only by
the reconciler's file rewrite, is outside the scope of these claims.) -/
def parseStep (acc : List Char × List PeerSec) (sec : List Char) :
    List Char × List PeerSec :=
  let s := pyStrip sec
  if s.isEmpty then acc
  else if hdrInterface.isPrefixOf s then (s, acc.2)
  else if hdrPeer.isPrefixOf s then (acc.1, acc.2 ++ [⟨s, searchPublicKey s⟩])
  else acc

def parse_config (content : List Char) : List Char × List PeerSec :=
  (reSplitSections (pyStrip content)).foldl parseStep ([], [])

def blankSep : List Char := "\n\n".data

/-- `'\n\n'.flatten(parts)`. -/
def joinSep (sep : List Char) : List (List Char) → List Char
  | [] => []
  | [b] => b
  | b :: rest => b ++ sep ++ joinSep sep rest

/-- `app/wg.py:build_config` on parse output: strip the interface block
and each peer's raw block, join with one blank line, terminate with a
newline. -/
def build_config (interfaceBlock : List Char) (peers : List PeerSec) : List Char :=
  joinSep blankSep (pyStrip interfaceBlock :: peers.map (fun p => pyStrip p.raw))
    ++ ['\n']

lemma dropWhile_append_of_all {p : Char → Bool} {u : List Char}
    (hu : ∀ c ∈ u, p c = true) (l : List Char) :
    (u ++ l).dropWhile p = l.dropWhile p := by
  induction u with
  | nil => rfl
  | cons c t ih =>
    have hc : p c = true := hu c (List.mem_cons_self _ _)
    simp only [List.cons_append, List.dropWhile_cons, hc, if_true]
    exact ih (fun d hd => hu d (List.mem_cons_of_mem _ hd))

lemma dropWhile_cons_neg {p : Char → Bool} {c : Char} (hc : p c = false)
    (l : List Char) : (c :: l).dropWhile p = c :: l := by
  simp [List.dropWhile_cons, hc]

lemma dropWhile_append_split (p : Char → Bool) (a b : List Char) :
    (a ++ b).dropWhile p =
      if (a.dropWhile p).isEmpty then b.dropWhile p else a.dropWhile p ++ b := by
  induction a with
  | nil => simp
  | cons c t ih =>
    simp only [List.cons_append, List.dropWhile_cons]
    cases hc : p c with
    | true => simpa using ih
    | false => simp

lemma dropWhile_idem (p : Char → Bool) (l : List Char) :
    (l.dropWhile p).dropWhile p = l.dropWhile p := by
  induction l with
  | nil => rfl
  | cons c t ih =>
    simp only [List.dropWhile_cons]
    cases hc : p c with
    | true => simpa using ih
    | false => simp [List.dropWhile_cons, hc]

lemma rstrip_append (a b : List Char) :
    rstrip (a ++ b) = if (rstrip b).isEmpty then rstrip a else a ++ rstrip b := by
  unfold rstrip
  rw [List.reverse_append, dropWhile_append_split]
  cases hb : (b.reverse.dropWhile isSpaceChar).isEmpty with
  | true =>
    have h2 : (b.reverse.dropWhile isSpaceChar).reverse.isEmpty = true := by
      rw [List.isEmpty_iff] at hb ⊢
      rw [hb]
      rfl
    rw [h2]
    simp
  | false =>
    have h2 : (b.reverse.dropWhile isSpaceChar).reverse.isEmpty = false := by
      rw [List.isEmpty_eq_false] at hb ⊢
      intro hc
      exact hb (by simpa using congrArg List.reverse hc)
    rw [h2]
    simp

lemma rstrip_idem (l : List Char) : rstrip (rstrip l) = rstrip l := by
  unfold rstrip
  rw [List.reverse_reverse, dropWhile_idem]

lemma rstrip_append_rstrip (a b : List Char) (ha : rstrip a = a) :
    rstrip (a ++ rstrip b) = a ++ rstrip b := by
  rw [rstrip_append, rstrip_idem]
  cases hb : (rstrip b).isEmpty with
  | true =>
    rw [List.isEmpty_iff] at hb
    simp [hb, ha]
  | false => simp

lemma isPrefixOf_append_self (l t : List Char) : l.isPrefixOf (l ++ t) = true := by
  induction l with
  | nil => simp [List.isPrefixOf]
  | cons c r ih => simp [List.isPrefixOf, ih]

lemma isPrefixOf_cons_false {c : Char} (hc : c ≠ '[') (hs l : List Char) :
    (('[' :: hs).isPrefixOf (c :: l)) = false := by
  cases hbeq : ('[' == c) with
  | false => simp [List.isPrefixOf, hbeq]
  | true =>
    have : '[' = c := by simpa using hbeq
    exact absurd this.symm hc

lemma isHdrAt_false {c : Char} (hc : c ≠ '[') (l : List Char) :
    isHdrAt (c :: l) = false := by
  unfold isHdrAt
  rw [show hdrInterface = '[' :: "Interface]".data from rfl,
    show hdrPeer = '[' :: "Peer]".data from rfl,
    isPrefixOf_cons_false hc, isPrefixOf_cons_false hc]
  rfl

lemma splitAux_scan {u : List Char} (hu : ∀ c ∈ u, c ≠ '[') :
    ∀ (rest acc : List Char),
      splitAux (u ++ rest) acc = splitAux rest (u.reverse ++ acc) := by
  induction u with
  | nil => intro rest acc; simp
  | cons c t ih =>
    intro rest acc
    have hc : c ≠ '[' := hu c (List.mem_cons_self _ _)
    have ht : ∀ d ∈ t, d ≠ '[' := fun d hd => hu d (List.mem_cons_of_mem _ hd)
    simp only [List.cons_append, splitAux, isHdrAt_false hc, Bool.false_eq_true,
      if_false]
    have h2 := ih ht rest (c :: acc)
    rw [show ((c :: t).reverse ++ acc : List Char) = t.reverse ++ (c :: acc) from by simp]
    exact h2

lemma splitAux_hdr {hdr : List Char}
    (hhdr : hdr = hdrInterface ∨ hdr = hdrPeer) {u : List Char} (hu : '[' ∉ u)
    (rest acc : List Char) :
    splitAux (hdr ++ u ++ rest) acc =
      acc.reverse :: splitAux rest ((hdr ++ u).reverse) := by
  have hu' : ∀ c ∈ u, c ≠ '[' := fun c hc he => hu (he ▸ hc)
  rcases hhdr with h | h <;> subst h
  · have hd : hdrInterface = '[' :: "Interface]".data := rfl
    rw [hd]
    have hstart : isHdrAt ('[' :: ("Interface]".data ++ u ++ rest)) = true := by
      unfold isHdrAt
      rw [Bool.or_eq_true]
      left
      rw [hd]
      have : '[' :: ("Interface]".data ++ u ++ rest) =
          ('[' :: "Interface]".data) ++ (u ++ rest) := by simp
      rw [this]
      exact isPrefixOf_append_self _ _
    have hIfree : ∀ c ∈ "Interface]".data, c ≠ '[' := by decide
    have hcat : ∀ d ∈ "Interface]".data ++ u, d ≠ '[' := by
      intro d hd2
      rcases List.mem_append.mp hd2 with hl | hr
      · exact hIfree d hl
      · exact hu' d hr
    calc splitAux (('[' :: "Interface]".data) ++ u ++ rest) acc
        = splitAux ('[' :: ("Interface]".data ++ u ++ rest)) acc := by
          rw [show ((('[' :: "Interface]".data) ++ u ++ rest : List Char) =
            '[' :: ("Interface]".data ++ u ++ rest)) from by simp]
      _ = acc.reverse :: splitAux ("Interface]".data ++ u ++ rest) ['['] := by
          simp only [splitAux, hstart, if_true]
      _ = acc.reverse :: splitAux rest (("Interface]".data ++ u).reverse ++ ['[']) := by
          rw [show ("Interface]".data ++ u ++ rest) =
            (("Interface]".data ++ u) ++ rest) from by simp]
          rw [splitAux_scan hcat rest _]
      _ = acc.reverse :: splitAux rest ((('[' :: "Interface]".data) ++ u).reverse) := by
          rw [show (((('[' :: "Interface]".data) ++ u).reverse : List Char) =
            ("Interface]".data ++ u).reverse ++ ['[']) from by simp]
  · have hd : hdrPeer = '[' :: "Peer]".data := rfl
    rw [hd]
    have hstart : isHdrAt ('[' :: ("Peer]".data ++ u ++ rest)) = true := by
      unfold isHdrAt
      rw [Bool.or_eq_true]
      right
      rw [hd]
      have : '[' :: ("Peer]".data ++ u ++ rest) =
          ('[' :: "Peer]".data) ++ (u ++ rest) := by simp
      rw [this]
      exact isPrefixOf_append_self _ _
    have hPfree : ∀ c ∈ "Peer]".data, c ≠ '[' := by decide
    have hcat : ∀ d ∈ "Peer]".data ++ u, d ≠ '[' := by
      intro d hd2
      rcases List.mem_append.mp hd2 with hl | hr
      · exact hPfree d hl
      · exact hu' d hr
    calc splitAux (('[' :: "Peer]".data) ++ u ++ rest) acc
        = splitAux ('[' :: ("Peer]".data ++ u ++ rest)) acc := by
          rw [show ((('[' :: "Peer]".data) ++ u ++ rest : List Char) =
            '[' :: ("Peer]".data ++ u ++ rest)) from by simp]
      _ = acc.reverse :: splitAux ("Peer]".data ++ u ++ rest) ['['] := by
          simp only [splitAux, hstart, if_true]
      _ = acc.reverse :: splitAux rest (("Peer]".data ++ u).reverse ++ ['[']) := by
          rw [show ("Peer]".data ++ u ++ rest) =
            (("Peer]".data ++ u) ++ rest) from by simp]
          rw [splitAux_scan hcat rest _]
      _ = acc.reverse :: splitAux rest ((('[' :: "Peer]".data) ++ u).reverse) := by
          rw [show (((('[' :: "Peer]".data) ++ u).reverse : List Char) =
            ("Peer]".data ++ u).reverse ++ ['[']) from by simp]

/-- A well-formed section block: one header followed by bracket-free text. -/
def WfBlock (bl : List Char) : Prop :=
  ∃ u, '[' ∉ u ∧ (bl = hdrInterface ++ u ∨ bl = hdrPeer ++ u)

lemma splitAux_blocks :
    ∀ (blocks : List (List Char)), (∀ bl ∈ blocks, WfBlock bl) → blocks ≠ [] →
      ∀ acc, splitAux blocks.flatten acc = acc.reverse :: blocks := by
  intro blocks
  induction blocks with
  | nil => intro _ hne; exact absurd rfl hne
  | cons b bs ih =>
    intro hwf _ acc
    obtain ⟨u, hu, hcase⟩ := hwf b (List.mem_cons_self _ _)
    have hj : (b :: bs).flatten = b ++ bs.flatten := by simp
    have hstep : splitAux ((b :: bs).flatten) acc =
        acc.reverse :: splitAux bs.flatten b.reverse := by
      rcases hcase with h | h
      · rw [hj, h, splitAux_hdr (Or.inl rfl) hu bs.flatten acc, ← h]
      · rw [hj, h, splitAux_hdr (Or.inr rfl) hu bs.flatten acc, ← h]
    rw [hstep]
    cases bs with
    | nil => simp [splitAux]
    | cons c t =>
      have hwf2 : ∀ bl ∈ (c :: t), WfBlock bl :=
        fun bl hbl => hwf bl (List.mem_cons_of_mem _ hbl)
      rw [ih hwf2 (by simp) b.reverse]
      simp

lemma lstrip_hdr {hdr : List Char} (hhdr : hdr = hdrInterface ∨ hdr = hdrPeer)
    (y : List Char) : lstrip (hdr ++ y) = hdr ++ y := by
  have hb : isSpaceChar '[' = false := by decide
  rcases hhdr with h | h
  · subst h
    show lstrip ('[' :: ("Interface]".data ++ y)) = hdrInterface ++ y
    unfold lstrip
    rw [dropWhile_cons_neg hb]
    rfl
  · subst h
    show lstrip ('[' :: ("Peer]".data ++ y)) = hdrPeer ++ y
    unfold lstrip
    rw [dropWhile_cons_neg hb]
    rfl

lemma rstrip_hdrI : rstrip hdrInterface = hdrInterface := by decide

lemma rstrip_hdrP : rstrip hdrPeer = hdrPeer := by decide

lemma pyStrip_hdr_append {hdr : List Char}
    (hhdr : hdr = hdrInterface ∨ hdr = hdrPeer) (y : List Char) :
    pyStrip (hdr ++ y) = hdr ++ rstrip y := by
  unfold pyStrip
  rw [lstrip_hdr hhdr y, rstrip_append]
  cases he : (rstrip y).isEmpty with
  | true =>
    rw [List.isEmpty_iff] at he
    rcases hhdr with h | h <;> subst h <;> simp [he, rstrip_hdrI, rstrip_hdrP]
  | false => simp

lemma parseStep_hdrI (acc : List Char × List PeerSec) (x : List Char) :
    parseStep acc (hdrInterface ++ x) = (hdrInterface ++ rstrip x, acc.2) := by
  unfold parseStep
  rw [pyStrip_hdr_append (Or.inl rfl) x]
  have hne : ((hdrInterface ++ rstrip x : List Char).isEmpty) = false := rfl
  have hpre := isPrefixOf_append_self hdrInterface (rstrip x)
  simp only [hne, Bool.false_eq_true, if_false, hpre, if_true]

lemma parseStep_hdrP (acc : List Char × List PeerSec) (y : List Char) :
    parseStep acc (hdrPeer ++ y) =
      (acc.1, acc.2 ++ [⟨hdrPeer ++ rstrip y,
        searchPublicKey (hdrPeer ++ rstrip y)⟩]) := by
  unfold parseStep
  rw [pyStrip_hdr_append (Or.inr rfl) y]
  have hne : ((hdrPeer ++ rstrip y : List Char).isEmpty) = false := rfl
  have hnotI : hdrInterface.isPrefixOf (hdrPeer ++ rstrip y) = false := rfl
  have hP := isPrefixOf_append_self hdrPeer (rstrip y)
  simp only [hne, hnotI, hP, Bool.false_eq_true, if_false, if_true]

lemma foldl_parseStep_peers :
    ∀ (pybs : List (List Char)), (∀ bl ∈ pybs, ∃ y, bl = hdrPeer ++ y) →
      ∀ (st : List Char × List PeerSec),
        pybs.foldl parseStep st =
          (st.1, st.2 ++ pybs.map (fun bl =>
            ⟨pyStrip bl, searchPublicKey (pyStrip bl)⟩)) := by
  intro pybs
  induction pybs with
  | nil => intro _ st; simp
  | cons bl rest ih =>
    intro hall st
    obtain ⟨y, hy⟩ := hall bl (List.mem_cons_self _ _)
    have hrest : ∀ b ∈ rest, ∃ y, b = hdrPeer ++ y :=
      fun b hb => hall b (List.mem_cons_of_mem _ hb)
    simp only [List.foldl_cons, List.map_cons]
    rw [hy, parseStep_hdrP, ih hrest]
    rw [pyStrip_hdr_append (Or.inr rfl) y]
    simp

lemma foldl_parseStep_sections (x : List Char) (pybs : List (List Char))
    (hall : ∀ bl ∈ pybs, ∃ y, bl = hdrPeer ++ y) :
    (([] : List Char) :: (hdrInterface ++ x) :: pybs).foldl parseStep ([], []) =
      (hdrInterface ++ rstrip x,
       pybs.map (fun bl => ⟨pyStrip bl, searchPublicKey (pyStrip bl)⟩)) := by
  simp only [List.foldl_cons]
  rw [show parseStep (([] : List Char), ([] : List PeerSec)) [] =
    (([] : List Char), ([] : List PeerSec)) from rfl]
  rw [parseStep_hdrI]
  rw [foldl_parseStep_peers pybs hall _]
  simp

lemma rstrip_hdr_append {hdr : List Char}
    (hhdr : hdr = hdrInterface ∨ hdr = hdrPeer) (y : List Char) :
    rstrip (hdr ++ y) = hdr ++ rstrip y := by
  rw [rstrip_append]
  cases he : (rstrip y).isEmpty with
  | true =>
    rw [List.isEmpty_iff] at he
    rcases hhdr with h | h <;> subst h <;> simp [he, rstrip_hdrI, rstrip_hdrP]
  | false => simp

lemma rstrip_subset {c : Char} {l : List Char} (hc : c ∈ rstrip l) : c ∈ l := by
  unfold rstrip at hc
  rw [List.mem_reverse] at hc
  have := List.dropWhile_sublist (l := l.reverse) (p := isSpaceChar)
  have hm := this.mem hc
  rw [List.mem_reverse] at hm
  exact hm

/-- Right-strip the last element of a list of blocks (the effect of the
whole-text `strip()` on the final section). -/
def rstripLast : List (List Char) → List (List Char)
  | [] => []
  | [b] => [rstrip b]
  | b :: rest => b :: rstripLast rest

lemma rstripLast_mem : ∀ {pbs : List (List Char)} {b' : List Char},
    b' ∈ rstripLast pbs → ∃ b ∈ pbs, b' = b ∨ b' = rstrip b := by
  intro pbs
  induction pbs with
  | nil => intro b' h; cases h
  | cons b rest ih =>
    intro b' h
    cases rest with
    | nil =>
      have : b' = rstrip b := List.mem_singleton.mp h
      exact ⟨b, List.mem_cons_self _ _, Or.inr this⟩
    | cons r t =>
      rcases List.mem_cons.mp h with he | ht
      · exact ⟨b, List.mem_cons_self _ _, Or.inl he⟩
      · obtain ⟨b2, hb2, hcase⟩ := ih ht
        exact ⟨b2, List.mem_cons_of_mem _ hb2, hcase⟩

lemma rstripLast_map_rstrip {α : Type} (F : List Char → α) :
    ∀ (pbs : List (List Char)),
      (rstripLast pbs).map (fun b => F (rstrip b)) =
        pbs.map (fun b => F (rstrip b)) := by
  intro pbs
  induction pbs with
  | nil => rfl
  | cons b rest ih =>
    cases rest with
    | nil => simp [rstripLast, rstrip_idem]
    | cons r t =>
      simp only [rstripLast, List.map_cons]
      rw [show rstripLast (r :: t) = rstripLast (r :: t) from rfl]
      have := ih
      simp only [List.map_cons] at this
      rw [this]

lemma rstrip_flatten_peer_blocks :
    ∀ (pbs : List (List Char)) (x : List Char), pbs ≠ [] →
      rstrip (x ++ (pbs.map (fun b => hdrPeer ++ b)).flatten) =
        x ++ ((rstripLast pbs).map (fun b => hdrPeer ++ b)).flatten := by
  intro pbs
  induction pbs with
  | nil => intro x h; exact absurd rfl h
  | cons b rest ih =>
    intro x _
    cases rest with
    | nil =>
      simp only [List.map_cons, List.map_nil, List.flatten_cons, List.flatten_nil,
        List.append_nil, rstripLast]
      rw [← List.append_assoc, rstrip_append]
      cases he : (rstrip b).isEmpty with
      | true =>
        rw [List.isEmpty_iff] at he
        have h1 : rstrip (x ++ hdrPeer) = x ++ hdrPeer := by
          rw [rstrip_append]
          have h2 : ((rstrip hdrPeer).isEmpty) = false := by decide
          rw [h2]
          simp [rstrip_hdrP]
        simp [h1, he]
      | false =>
        simp [List.append_assoc]
    | cons r t =>
      have hJ : (((b :: r :: t).map (fun b => hdrPeer ++ b)).flatten : List Char) =
          (hdrPeer ++ b) ++ ((r :: t).map (fun b => hdrPeer ++ b)).flatten := by
        simp
      rw [hJ, ← List.append_assoc, ih (x ++ (hdrPeer ++ b)) (by simp)]
      rw [show rstripLast (b :: r :: t) = b :: rstripLast (r :: t) from rfl]
      simp

/-- Attach the join separator to every block except the last: the block
decomposition of `'\n\n'.join(blocks)` as seen by the header split. -/
def addSep (sep : List Char) : List (List Char) → List (List Char)
  | [] => []
  | [b] => [b]
  | b :: rest => (b ++ sep) :: addSep sep rest

lemma joinSep_eq_flatten_addSep (sep : List Char) :
    ∀ blocks : List (List Char), joinSep sep blocks = (addSep sep blocks).flatten := by
  intro blocks
  induction blocks with
  | nil => rfl
  | cons b rest ih =>
    cases rest with
    | nil => simp [joinSep, addSep]
    | cons r t =>
      simp only [joinSep, addSep, List.flatten_cons]
      rw [ih]

lemma addSep_wf {sep : List Char} (hsep : '[' ∉ sep) :
    ∀ blocks : List (List Char), (∀ bl ∈ blocks, WfBlock bl) →
      ∀ bl ∈ addSep sep blocks, WfBlock bl := by
  intro blocks
  induction blocks with
  | nil => intro _ bl h; cases h
  | cons b rest ih =>
    intro hwf bl hbl
    cases rest with
    | nil =>
      rw [show addSep sep [b] = [b] from rfl] at hbl
      exact hwf bl (by rw [List.mem_singleton.mp hbl]; exact List.mem_cons_self _ _)
    | cons r t =>
      rw [show addSep sep (b :: r :: t) = (b ++ sep) :: addSep sep (r :: t) from rfl] at hbl
      rcases List.mem_cons.mp hbl with he | ht
      · obtain ⟨u, hu, hcase⟩ := hwf b (List.mem_cons_self _ _)
        refine ⟨u ++ sep, ?_, ?_⟩
        · intro hmem
          rcases List.mem_append.mp hmem with h1 | h2
          · exact hu h1
          · exact hsep h2
        · rcases hcase with h | h <;> subst h <;> rw [he] <;> simp
      · exact ih (fun bl2 hbl2 => hwf bl2 (List.mem_cons_of_mem _ hbl2)) bl ht

lemma rstrip_joinSep_stable (sep : List Char) :
    ∀ (blocks : List (List Char)) (x : List Char), blocks ≠ [] →
      (∀ b ∈ blocks, rstrip b = b ∧ b ≠ []) →
      rstrip (x ++ joinSep sep blocks) = x ++ joinSep sep blocks := by
  intro blocks
  induction blocks with
  | nil => intro x h; exact absurd rfl h
  | cons b rest ih =>
    intro x _ hstable
    obtain ⟨hb, hbne⟩ := hstable b (List.mem_cons_self _ _)
    cases rest with
    | nil =>
      rw [show joinSep sep [b] = b from rfl, rstrip_append, hb]
      have : (b.isEmpty) = false := by
        rw [List.isEmpty_eq_false]
        exact hbne
      rw [this]
      simp
    | cons r t =>
      rw [show joinSep sep (b :: r :: t) = b ++ sep ++ joinSep sep (r :: t) from by
        simp [joinSep]]
      rw [show (x ++ (b ++ sep ++ joinSep sep (r :: t)) : List Char) =
        ((x ++ b ++ sep) ++ joinSep sep (r :: t)) from by simp]
      rw [ih (x ++ b ++ sep) (by simp)
        (fun b2 hb2 => hstable b2 (List.mem_cons_of_mem _ hb2))]

lemma joinSep_cons_structure (sep b : List Char) (rest : List (List Char)) :
    ∃ w, joinSep sep (b :: rest) = b ++ w := by
  cases rest with
  | nil => exact ⟨[], by simp [joinSep]⟩
  | cons r t => exact ⟨sep ++ joinSep sep (r :: t), by simp [joinSep]⟩

lemma addSep_ne_nil (sep b : List Char) (rest : List (List Char)) :
    addSep sep (b :: rest) ≠ [] := by
  cases rest <;> simp [addSep]

lemma mem_addSep {sep : List Char} : ∀ {raws : List (List Char)} {bl : List Char},
    bl ∈ addSep sep raws → ∃ r ∈ raws, bl = r ∨ bl = r ++ sep := by
  intro raws
  induction raws with
  | nil => intro bl h; cases h
  | cons r rest ih =>
    intro bl hbl
    cases rest with
    | nil =>
      rw [show addSep sep [r] = [r] from rfl] at hbl
      exact ⟨r, List.mem_cons_self _ _, Or.inl (List.mem_singleton.mp hbl)⟩
    | cons r2 t =>
      rw [show addSep sep (r :: r2 :: t) = (r ++ sep) :: addSep sep (r2 :: t) from rfl] at hbl
      rcases List.mem_cons.mp hbl with he | ht
      · exact ⟨r, List.mem_cons_self _ _, Or.inr he⟩
      · obtain ⟨r3, h3, hc⟩ := ih ht
        exact ⟨r3, List.mem_cons_of_mem _ h3, hc⟩

lemma addSep_parse_map :
    ∀ (raws : List (List Char)),
      (∀ r ∈ raws, ∃ b, r = hdrPeer ++ rstrip b) →
      (addSep blankSep raws).map
          (fun bl => (⟨pyStrip bl, searchPublicKey (pyStrip bl)⟩ : PeerSec)) =
        raws.map (fun r => (⟨r, searchPublicKey r⟩ : PeerSec)) := by
  intro raws
  induction raws with
  | nil => intro _; rfl
  | cons r rest ih =>
    intro hform
    obtain ⟨b, hb⟩ := hform r (List.mem_cons_self _ _)
    have hps : pyStrip r = r := by
      rw [hb, pyStrip_hdr_append (Or.inr rfl), rstrip_idem]
    cases rest with
    | nil =>
      rw [show addSep blankSep [r] = [r] from rfl]
      simp [hps]
    | cons r2 t =>
      rw [show addSep blankSep (r :: r2 :: t) =
        (r ++ blankSep) :: addSep blankSep (r2 :: t) from rfl]
      have hps2 : pyStrip (r ++ blankSep) = r := by
        rw [hb, List.append_assoc, pyStrip_hdr_append (Or.inr rfl), rstrip_append]
        have h9 : ((rstrip blankSep).isEmpty) = true := by decide
        rw [h9]
        simp [rstrip_idem]
      simp only [List.map_cons, hps2]
      rw [ih (fun r3 h3 => hform r3 (List.mem_cons_of_mem _ h3))]
      simp

lemma hdr_append_stable {hdr : List Char}
    (hhdr : hdr = hdrInterface ∨ hdr = hdrPeer) (y : List Char) :
    rstrip (hdr ++ rstrip y) = hdr ++ rstrip y ∧ hdr ++ rstrip y ≠ [] := by
  constructor
  · rw [rstrip_hdr_append hhdr, rstrip_idem]
  · intro h
    rcases List.append_eq_nil.mp h with ⟨h1, _⟩
    rcases hhdr with h2 | h2 <;> subst h2 <;> exact absurd h1 (by decide)

lemma lstrip_ws_lead {ws0 : List Char} (hws : ∀ c ∈ ws0, isSpaceChar c = true)
    (z : List Char) : lstrip (ws0 ++ z) = lstrip z :=
  dropWhile_append_of_all hws z

lemma map_entry_hdrPeer : ∀ (l : List (List Char)),
    (l.map (fun b => hdrPeer ++ b)).map
        (fun bl => (⟨pyStrip bl, searchPublicKey (pyStrip bl)⟩ : PeerSec)) =
      l.map (fun b =>
        (⟨hdrPeer ++ rstrip b, searchPublicKey (hdrPeer ++ rstrip b)⟩ : PeerSec)) := by
  intro l
  induction l with
  | nil => rfl
  | cons b t ih => simp [ih, pyStrip_hdr_append (Or.inr rfl)]

lemma rstripLast_map_entry (l : List (List Char)) :
    (rstripLast l).map (fun b =>
        (⟨hdrPeer ++ rstrip b, searchPublicKey (hdrPeer ++ rstrip b)⟩ : PeerSec)) =
      l.map (fun b =>
        (⟨hdrPeer ++ rstrip b, searchPublicKey (hdrPeer ++ rstrip b)⟩ : PeerSec)) :=
  rstripLast_map_rstrip
    (fun z => (⟨hdrPeer ++ z, searchPublicKey (hdrPeer ++ z)⟩ : PeerSec)) l

lemma map_raw_entry : ∀ (l : List (List Char)),
    (l.map (fun b => hdrPeer ++ rstrip b)).map
        (fun r => (⟨r, searchPublicKey r⟩ : PeerSec)) =
      l.map (fun b =>
        (⟨hdrPeer ++ rstrip b, searchPublicKey (hdrPeer ++ rstrip b)⟩ : PeerSec)) := by
  intro l
  induction l with
  | nil => rfl
  | cons b t ih => simp [ih]

lemma map_peer_raw : ∀ (l : List (List Char)),
    (l.map (fun b =>
        (⟨hdrPeer ++ rstrip b, searchPublicKey (hdrPeer ++ rstrip b)⟩ : PeerSec))).map
      (fun p => pyStrip p.raw) = l.map (fun b => hdrPeer ++ rstrip b) := by
  intro l
  induction l with
  | nil => rfl
  | cons b t ih => simp [ih, pyStrip_hdr_append (Or.inr rfl), rstrip_idem]

/-- `parse_config` on a well-formed config text: whitespace prefix, one
`[Interface]` section, then the peer sections in order. -/
lemma parse_config_normal_form (ws0 ib : List Char) (pbs : List (List Char))
    (hws : ∀ c ∈ ws0, isSpaceChar c = true) (hib : '[' ∉ ib)
    (hpbs : ∀ b ∈ pbs, '[' ∉ b) :
    parse_config (ws0 ++ hdrInterface ++ ib ++
        (pbs.map (fun b => hdrPeer ++ b)).flatten) =
      (hdrInterface ++ rstrip ib,
       pbs.map (fun b =>
         (⟨hdrPeer ++ rstrip b, searchPublicKey (hdrPeer ++ rstrip b)⟩ : PeerSec))) := by
  cases pbs with
  | nil =>
    unfold parse_config
    have hstrip : pyStrip (ws0 ++ hdrInterface ++ ib ++
        ((List.map (fun b => hdrPeer ++ b) ([] : List (List Char))).flatten)) =
        hdrInterface ++ rstrip ib := by
      simp only [List.map_nil, List.flatten_nil, List.append_nil]
      unfold pyStrip
      rw [show (ws0 ++ hdrInterface ++ ib : List Char) =
        ws0 ++ (hdrInterface ++ ib) from by simp]
      rw [lstrip_ws_lead hws, lstrip_hdr (Or.inl rfl)]
      exact rstrip_hdr_append (Or.inl rfl) ib
    rw [hstrip]
    have hwf1 : ∀ bl ∈ [hdrInterface ++ rstrip ib], WfBlock bl := by
      intro bl hbl
      rw [List.mem_singleton.mp hbl]
      exact ⟨rstrip ib, fun hm => hib (rstrip_subset hm), Or.inl rfl⟩
    have hsplit : reSplitSections (hdrInterface ++ rstrip ib) =
        [[], hdrInterface ++ rstrip ib] := by
      have h0 := splitAux_blocks [hdrInterface ++ rstrip ib] hwf1 (by simp) []
      unfold reSplitSections
      simpa using h0
    rw [hsplit]
    have h1 := foldl_parseStep_sections (rstrip ib) [] (by intro bl h; cases h)
    simp only [List.map_nil] at h1
    rw [h1]
    simp [rstrip_idem]
  | cons p ps =>
    unfold parse_config
    have hstrip : pyStrip (ws0 ++ hdrInterface ++ ib ++
        ((p :: ps).map (fun b => hdrPeer ++ b)).flatten) =
        ((hdrInterface ++ ib) ::
          (rstripLast (p :: ps)).map (fun b => hdrPeer ++ b)).flatten := by
      unfold pyStrip
      rw [show (ws0 ++ hdrInterface ++ ib ++
          ((p :: ps).map (fun b => hdrPeer ++ b)).flatten : List Char) =
        ws0 ++ (hdrInterface ++
          (ib ++ ((p :: ps).map (fun b => hdrPeer ++ b)).flatten)) from by simp]
      rw [lstrip_ws_lead hws, lstrip_hdr (Or.inl rfl)]
      rw [show (hdrInterface ++
          (ib ++ ((p :: ps).map (fun b => hdrPeer ++ b)).flatten) : List Char) =
        (hdrInterface ++ ib) ++
          ((p :: ps).map (fun b => hdrPeer ++ b)).flatten from by simp]
      rw [rstrip_flatten_peer_blocks (p :: ps) (hdrInterface ++ ib) (by simp)]
      simp
    rw [hstrip]
    have hwfblocks : ∀ bl ∈ ((hdrInterface ++ ib) ::
        (rstripLast (p :: ps)).map (fun b => hdrPeer ++ b)), WfBlock bl := by
      intro bl hbl
      rcases List.mem_cons.mp hbl with he | ht
      · exact ⟨ib, hib, Or.inl he⟩
      · obtain ⟨b', hb', hbl'⟩ := List.mem_map.mp ht
        obtain ⟨b0, hb0, hcase⟩ := rstripLast_mem hb'
        refine ⟨b', ?_, Or.inr hbl'.symm⟩
        rcases hcase with h | h
        · rw [h]; exact hpbs b0 hb0
        · rw [h]; intro hm; exact hpbs b0 hb0 (rstrip_subset hm)
    unfold reSplitSections
    rw [splitAux_blocks _ hwfblocks (by simp) []]
    simp only [List.reverse_nil]
    rw [foldl_parseStep_sections ib _ (by
      intro bl hbl
      obtain ⟨b', _, hbl'⟩ := List.mem_map.mp hbl
      exact ⟨b', hbl'.symm⟩)]
    rw [map_entry_hdrPeer, rstripLast_map_entry]

/-- `build_config` on the parse output of a well-formed config renders the
stripped sections joined by one blank line, with a final newline. -/
lemma build_config_normal_form (ib : List Char) (pbs : List (List Char)) :
    build_config (hdrInterface ++ rstrip ib)
        (pbs.map (fun b =>
          (⟨hdrPeer ++ rstrip b, searchPublicKey (hdrPeer ++ rstrip b)⟩ : PeerSec))) =
      joinSep blankSep ((hdrInterface ++ rstrip ib) ::
        pbs.map (fun b => hdrPeer ++ rstrip b)) ++ ['\n'] := by
  unfold build_config
  rw [pyStrip_hdr_append (Or.inl rfl), rstrip_idem, map_peer_raw]

/-- `parse_config` recovers the sections from the text that `build_config`
renders. -/
lemma parse_config_of_build (ib : List Char) (pbs : List (List Char))
    (hib : '[' ∉ ib) (hpbs : ∀ b ∈ pbs, '[' ∉ b) :
    parse_config (joinSep blankSep ((hdrInterface ++ rstrip ib) ::
        pbs.map (fun b => hdrPeer ++ rstrip b)) ++ ['\n']) =
      (hdrInterface ++ rstrip ib,
       pbs.map (fun b =>
         (⟨hdrPeer ++ rstrip b, searchPublicKey (hdrPeer ++ rstrip b)⟩ : PeerSec))) := by
  have hstab0 : ∀ b2 ∈ ((hdrInterface ++ rstrip ib) ::
      pbs.map (fun b => hdrPeer ++ rstrip b)), rstrip b2 = b2 ∧ b2 ≠ [] := by
    intro b2 hbmem
    rcases List.mem_cons.mp hbmem with he | ht
    · rw [he]; exact hdr_append_stable (Or.inl rfl) ib
    · obtain ⟨b0, _, hb0⟩ := List.mem_map.mp ht
      rw [← hb0]; exact hdr_append_stable (Or.inr rfl) b0
  have hr : rstrip (joinSep blankSep ((hdrInterface ++ rstrip ib) ::
      pbs.map (fun b => hdrPeer ++ rstrip b)) ++ ['\n']) =
      joinSep blankSep ((hdrInterface ++ rstrip ib) ::
        pbs.map (fun b => hdrPeer ++ rstrip b)) := by
    rw [rstrip_append]
    have h9 : ((rstrip ['\n']).isEmpty) = true := by decide
    rw [h9]
    have h10 := rstrip_joinSep_stable blankSep ((hdrInterface ++ rstrip ib) ::
      pbs.map (fun b => hdrPeer ++ rstrip b)) [] (by simp) hstab0
    simpa using h10
  have hps : pyStrip (joinSep blankSep ((hdrInterface ++ rstrip ib) ::
      pbs.map (fun b => hdrPeer ++ rstrip b)) ++ ['\n']) =
      joinSep blankSep ((hdrInterface ++ rstrip ib) ::
        pbs.map (fun b => hdrPeer ++ rstrip b)) := by
    obtain ⟨w, hw⟩ := joinSep_cons_structure blankSep (hdrInterface ++ rstrip ib)
      (pbs.map (fun b => hdrPeer ++ rstrip b))
    unfold pyStrip
    have hl : lstrip (joinSep blankSep ((hdrInterface ++ rstrip ib) ::
        pbs.map (fun b => hdrPeer ++ rstrip b)) ++ ['\n']) =
        joinSep blankSep ((hdrInterface ++ rstrip ib) ::
          pbs.map (fun b => hdrPeer ++ rstrip b)) ++ ['\n'] := by
      rw [hw]
      have h2 := lstrip_hdr (Or.inl rfl) (rstrip ib ++ (w ++ ['\n']))
      rw [show (hdrInterface ++ (rstrip ib ++ (w ++ ['\n'])) : List Char) =
        (hdrInterface ++ rstrip ib) ++ w ++ ['\n'] from by simp] at h2
      exact h2
    rw [hl]
    exact hr
  have hwf2 : ∀ bl ∈ ((hdrInterface ++ rstrip ib) ::
      pbs.map (fun b => hdrPeer ++ rstrip b)), WfBlock bl := by
    intro bl hbl
    rcases List.mem_cons.mp hbl with he | ht
    · exact ⟨rstrip ib, fun hm => hib (rstrip_subset hm), Or.inl he⟩
    · obtain ⟨b0, hb0, hbl0⟩ := List.mem_map.mp ht
      exact ⟨rstrip b0, fun hm => hpbs b0 hb0 (rstrip_subset hm), Or.inr hbl0.symm⟩
  have hsepfree : ('[' ∉ blankSep) := by decide
  unfold parse_config
  rw [hps, joinSep_eq_flatten_addSep]
  unfold reSplitSections
  rw [splitAux_blocks _ (addSep_wf hsepfree _ hwf2) (addSep_ne_nil _ _ _) []]
  simp only [List.reverse_nil]
  cases pbs with
  | nil =>
    rw [show addSep blankSep ((hdrInterface ++ rstrip ib) ::
      ([] : List (List Char)).map (fun b => hdrPeer ++ rstrip b)) =
      [hdrInterface ++ rstrip ib] from rfl]
    have h1 := foldl_parseStep_sections (rstrip ib) [] (by intro bl h; cases h)
    simp only [List.map_nil] at h1
    rw [h1]
    simp [rstrip_idem]
  | cons p ps =>
    simp only [List.map_cons]
    rw [show addSep blankSep ((hdrInterface ++ rstrip ib) ::
      (hdrPeer ++ rstrip p) :: ps.map (fun b => hdrPeer ++ rstrip b)) =
      ((hdrInterface ++ rstrip ib) ++ blankSep) ::
        addSep blankSep ((hdrPeer ++ rstrip p) ::
          ps.map (fun b => hdrPeer ++ rstrip b)) from rfl]
    rw [show ((hdrInterface ++ rstrip ib) ++ blankSep : List Char) =
      hdrInterface ++ (rstrip ib ++ blankSep) from by simp]
    rw [foldl_parseStep_sections (rstrip ib ++ blankSep) _ (by
      intro bl hbl
      obtain ⟨r, hrmem, hc⟩ := mem_addSep hbl
      have hrform : ∃ b0, r = hdrPeer ++ rstrip b0 := by
        rcases List.mem_cons.mp hrmem with he | ht
        · exact ⟨p, he⟩
        · obtain ⟨b0, _, hb0⟩ := List.mem_map.mp ht
          exact ⟨b0, hb0.symm⟩
      obtain ⟨b0, hb0⟩ := hrform
      rcases hc with h | h
      · exact ⟨rstrip b0, by rw [h, hb0]⟩
      · exact ⟨rstrip b0 ++ blankSep, by rw [h, hb0]; simp⟩)]
    have hx : rstrip (rstrip ib ++ blankSep) = rstrip ib := by
      rw [rstrip_append]
      have h9 : ((rstrip blankSep).isEmpty) = true := by decide
      rw [h9]
      simp [rstrip_idem]
    rw [hx]
    rw [addSep_parse_map ((hdrPeer ++ rstrip p) ::
      ps.map (fun b => hdrPeer ++ rstrip b)) (by
      intro r hrmem
      rcases List.mem_cons.mp hrmem with he | ht
      · exact ⟨p, he⟩
      · obtain ⟨b0, _, hb0⟩ := List.mem_map.mp ht
        exact ⟨b0, hb0.symm⟩)]
    have hfinal := map_raw_entry (p :: ps)
    simp only [List.map_cons] at hfinal ⊢
    rw [hfinal]

/-- C10: config codec round-trip stability.  For a configuration text made
of optional leading whitespace, one `[Interface]` section and zero or more
`[Peer]` sections (section bodies containing no section-opening bracket),
`build_config` applied to `parse_config`'s output renders exactly the
right-stripped interface block and each right-stripped peer block verbatim,
joined by a single blank line with one trailing newline; and parsing the
rebuilt text yields exactly the same parse (same interface string, same
ordered peer list, hence the same public keys) as parsing the original. -/
theorem config_codec_roundtrip (ws0 ib : List Char) (pbs : List (List Char))
    (content : List Char)
    (hcontent : content = ws0 ++ hdrInterface ++ ib ++
      (pbs.map (fun b => hdrPeer ++ b)).flatten)
    (hws : ∀ c ∈ ws0, isSpaceChar c = true)
    (hib : '[' ∉ ib)
    (hpbs : ∀ b ∈ pbs, '[' ∉ b) :
    build_config (parse_config content).1 (parse_config content).2 =
      joinSep blankSep ((hdrInterface ++ rstrip ib) ::
        pbs.map (fun b => hdrPeer ++ rstrip b)) ++ ['\n'] ∧
    parse_config (build_config (parse_config content).1 (parse_config content).2) =
      parse_config content := by
  subst hcontent
  rw [parse_config_normal_form ws0 ib pbs hws hib hpbs]
  exact ⟨build_config_normal_form ib pbs,
    (congrArg parse_config (build_config_normal_form ib pbs)).trans
      (parse_config_of_build ib pbs hib hpbs)⟩

/-- Witness for C10 at a concrete one-peer configuration. -/
theorem config_codec_roundtrip_witness :
    build_config
        (parse_config (([] : List Char) ++ hdrInterface ++ "\nX".data ++
          (["\nK".data].map (fun b => hdrPeer ++ b)).flatten)).1
        (parse_config (([] : List Char) ++ hdrInterface ++ "\nX".data ++
          (["\nK".data].map (fun b => hdrPeer ++ b)).flatten)).2 =
      joinSep blankSep ((hdrInterface ++ rstrip "\nX".data) ::
        ["\nK".data].map (fun b => hdrPeer ++ rstrip b)) ++ ['\n'] ∧
    parse_config (build_config
        (parse_config (([] : List Char) ++ hdrInterface ++ "\nX".data ++
          (["\nK".data].map (fun b => hdrPeer ++ b)).flatten)).1
        (parse_config (([] : List Char) ++ hdrInterface ++ "\nX".data ++
          (["\nK".data].map (fun b => hdrPeer ++ b)).flatten)).2) =
      parse_config (([] : List Char) ++ hdrInterface ++ "\nX".data ++
        (["\nK".data].map (fun b => hdrPeer ++ b)).flatten) :=
  config_codec_roundtrip [] "\nX".data ["\nK".data] _ rfl
    (by intro c hc; cases hc) (by decide) (by decide)

/-! ## Peer lifecycle (`app/wg.py:add_peer_to_config`,
`app/users.py:create_vpn_user`, `app/users.py:sync_all_users`)

The config file is its text; the kernel is modelled by the config text it
was last successfully synced to (`wg syncconf` applies the file), so a
peer is "in the kernel" when its public key occurs in that text.  Python's
substring test `public_key in content` is `containsSub`.  Failure
injection: booleans for the temp-file write, the post-write reload and the
rollback reload; `create_vpn_user` additionally for keypair generation and
the registry insert. -/

/-- Python `needle in haystack` on strings. -/
def containsSub (needle : List Char) : List Char → Bool
  | [] => needle.isEmpty
  | c :: rest => needle.isPrefixOf (c :: rest) || containsSub needle rest

inductive WGErr where
  | conflict
  | writeFailed
  | reloadFailed
  deriving Repr, DecidableEq

structure WGState where
  file : List Char
  kernel : List Char
  deriving Repr, DecidableEq

/-- The `peer_block` f-string of `add_peer_to_config`. -/
def peer_block (public_key allowed_ip : List Char)
    (comment : Option (List Char)) : List Char :=
  "[Peer]".data ++
    (match comment with
     | some cm => '\n' :: '#' :: ' ' :: cm
     | none => []) ++
  "\nPublicKey = ".data ++ public_key ++
  "\nAllowedIPs = ".data ++ allowed_ip ++ "/32".data

/-- `app/wg.py:add_peer_to_config`: duplicate check by substring, backup,
`content.rstrip() + '\n\n' + peer_block + '\n'` written atomically, then
reload; on reload failure the backup is restored and a second reload
attempted. -/
def add_peer_to_config (writeOk reload1 reload2 : Bool)
    (public_key allowed_ip : List Char) (comment : Option (List Char))
    (st : WGState) : WGState × Option WGErr :=
  if containsSub public_key st.file then (st, some .conflict)
  else if !writeOk then (st, some .writeFailed)
  else
    let newContent := rstrip st.file ++ "\n\n".data ++
      peer_block public_key allowed_ip comment ++ ['\n']
    if reload1 then ({ file := newContent, kernel := newContent }, none)
    else ({ file := st.file, kernel := if reload2 then st.file else st.kernel },
          some .reloadFailed)

/-- One row of the `users` table (fields used by the lifecycle). -/
structure RegRow where
  username : List Char
  public_key : List Char
  assigned_ip : String
  client_os : List Char
  acl_profile : String
  status : List Char
  deriving Repr, DecidableEq

structure Sys where
  wg : WGState
  registry : List RegRow
  chain : List Rule
  deriving Repr, DecidableEq

/-- `app/database.py:get_used_ips`. -/
def get_used_ips (registry : List RegRow) : List String :=
  registry.map (fun r => r.assigned_ip)

inductive EvKind where
  | allocK
  | addPeerK
  | aclK
  | regK
  deriving Repr, DecidableEq

/-- A mutation event of the create lifecycle, paired in traces with the
system state right after it. -/
inductive Ev where
  | alloc (ip : String)
  | addPeer (pk : List Char)
  | aclApply (ip : String)
  | regInsert (username : List Char)
  deriving Repr, DecidableEq

def evKind : Ev → EvKind
  | .alloc _ => .allocK
  | .addPeer _ => .addPeerK
  | .aclApply _ => .aclK
  | .regInsert _ => .regK

inductive CreateErr where
  | userExists
  | keygenFailed
  | allocFailed
  | wgError (e : WGErr)
  | dbError
  deriving Repr, DecidableEq

structure CreateOracle where
  keypair : Option (List Char × List Char)
  writeOk : Bool
  reload1 : Bool
  reload2 : Bool
  dbOk : Bool

/-- `app/users.py:create_vpn_user` (the `POST /api/users` handler):
existing-user check, keypair, `allocate_ip(get_used_ips())`,
`add_peer_to_config(public_key, assigned_ip, username)`, then
`apply_acl(assigned_ip, acl_profile)`, then the registry insert
`create_user(..., status default active)`.  Every `except` clause just
re-raises as an HTTP error: no rollback.  Returns the final state, the
trace of mutation events with their post-states, and the error if any. -/
def create_vpn_user (o : CreateOracle) (username client_os : List Char)
    (acl_profile : String) (s : Sys) : Sys × List (Ev × Sys) × Option CreateErr :=
  if s.registry.any (fun r => r.username == username) then (s, [], some .userExists)
  else
    match o.keypair with
    | none => (s, [], some .keygenFailed)
    | some (_, public_key) =>
      match allocate_ip (get_used_ips s.registry) with
      | .error _ => (s, [], some .allocFailed)
      | .ok assigned_ip =>
        let tr1 := [(Ev.alloc assigned_ip, s)]
        match add_peer_to_config o.writeOk o.reload1 o.reload2 public_key
            assigned_ip.data (some username) s.wg with
        | (wg2, some e) => ({ s with wg := wg2 }, tr1, some (.wgError e))
        | (wg2, none) =>
          let s1 : Sys := { s with wg := wg2 }
          let tr2 := tr1 ++ [(Ev.addPeer public_key, s1)]
          let s2 : Sys := { s1 with chain := apply_acl assigned_ip acl_profile s1.chain }
          let tr3 := tr2 ++ [(Ev.aclApply assigned_ip, s2)]
          if o.dbOk then
            let s3 : Sys := { s2 with registry := s2.registry ++
              [⟨username, public_key, assigned_ip, client_os, acl_profile, "active".data⟩] }
            (s3, tr3 ++ [(Ev.regInsert username, s3)], none)
          else (s2, tr3, some .dbError)

structure SyncOracle where
  writeOk : Nat → Bool
  reload1 : Nat → Bool
  reload2 : Nat → Bool

/-- Loop body of `sync_all_users`: for an `active` row, try
`add_peer_to_config(public_key, assigned_ip)` (no comment), counting
successes and collecting per-user errors; the accumulator threads the
config state, the success count, the error list and the attempt index. -/
def syncStep (o : SyncOracle) (acc : WGState × Nat × List (List Char) × Nat)
    (row : RegRow) : WGState × Nat × List (List Char) × Nat :=
  if row.status == "active".data then
    match add_peer_to_config (o.writeOk acc.2.2.2) (o.reload1 acc.2.2.2)
        (o.reload2 acc.2.2.2) row.public_key row.assigned_ip.data none acc.1 with
    | (wg2, none) => (wg2, acc.2.1 + 1, acc.2.2.1, acc.2.2.2 + 1)
    | (wg2, some _) => (wg2, acc.2.1, acc.2.2.1 ++ [row.username], acc.2.2.2 + 1)
  else acc

/-- `app/users.py:sync_all_users` (`POST /api/users/sync_all`): loop
`add_peer_to_config` over the registry's active rows, catching per-user
failures.  Returns the final state, the synced count and the error list. -/
def sync_all_users (o : SyncOracle) (s : Sys) : Sys × Nat × List (List Char) :=
  let r := s.registry.foldl (syncStep o) (s.wg, 0, [], 0)
  ({ s with wg := r.1 }, r.2.1, r.2.2.1)

lemma containsSub_of_append : ∀ (a n b : List Char),
    containsSub n (a ++ (n ++ b)) = true := by
  intro a
  induction a with
  | nil =>
    intro n b
    cases n with
    | nil =>
      induction b with
      | nil => rfl
      | cons c t ih => simp [containsSub]
    | cons c t =>
      simp only [List.nil_append, List.cons_append, containsSub, Bool.or_eq_true]
      left
      have := isPrefixOf_append_self (c :: t) b
      simp [this]
  | cons c a2 ih =>
    intro n b
    simp only [List.cons_append, containsSub, Bool.or_eq_true]
    right
    exact ih n b

lemma containsSub_iff_parts : ∀ (s n : List Char),
    containsSub n s = true ↔ ∃ a b, s = a ++ n ++ b := by
  intro s
  induction s with
  | nil =>
    intro n
    constructor
    · intro h
      have hn : n = [] := by
        cases n with
        | nil => rfl
        | cons c t => simp [containsSub] at h
      exact ⟨[], [], by simp [hn]⟩
    · rintro ⟨a, b, hab⟩
      rcases List.append_eq_nil.mp hab.symm with ⟨h1, _⟩
      rcases List.append_eq_nil.mp h1 with ⟨_, h3⟩
      subst h3
      rfl
  | cons c rest ih =>
    intro n
    constructor
    · intro h
      simp only [containsSub, Bool.or_eq_true] at h
      rcases h with h | h
      · rw [ List.isPrefixOf_iff_prefix] at h
        obtain ⟨t, ht⟩ := h
        exact ⟨[], t, by simp [ht]⟩
      · obtain ⟨a, b, hab⟩ := (ih n).mp h
        exact ⟨c :: a, b, by simp [hab]⟩
    · rintro ⟨a, b, hab⟩
      cases a with
      | nil =>
        simp only [List.nil_append] at hab
        simp only [containsSub, Bool.or_eq_true]
        left
        rw [ List.isPrefixOf_iff_prefix]
        exact ⟨b, hab.symm⟩
      | cons a0 a2 =>
        simp only [List.cons_append, List.cons.injEq] at hab
        obtain ⟨_, h2⟩ := hab
        simp only [containsSub, Bool.or_eq_true]
        right
        exact (ih n).mpr ⟨a2, b, h2⟩

lemma rstrip_of_last_nonspace (m : List Char) (c : Char)
    (hc : isSpaceChar c = false) : rstrip (m ++ [c]) = m ++ [c] := by
  unfold rstrip
  rw [List.reverse_append]
  simp [List.dropWhile_cons, hc]

/-- An occurrence of a needle whose last character is not whitespace
survives `content.rstrip()` followed by any append. -/
lemma containsSub_rstrip_append (n s t : List Char)
    (hshape : ∃ m c, n = m ++ [c] ∧ isSpaceChar c = false)
    (h : containsSub n s = true) :
    containsSub n (rstrip s ++ t) = true := by
  obtain ⟨m, c, hn, hc⟩ := hshape
  obtain ⟨a, b, hab⟩ := (containsSub_iff_parts s n).mp h
  subst hab
  have hrn : rstrip n = n := by rw [hn]; exact rstrip_of_last_nonspace m c hc
  have hne : ((rstrip n).isEmpty) = false := by
    rw [hrn, hn]
    simp
  cases hb : (rstrip b).isEmpty with
  | true =>
    have h2 : rstrip (a ++ n) = a ++ n := by
      rw [rstrip_append, hne]
      simp [hrn]
    have h3 : rstrip (a ++ n ++ b) = a ++ n := by
      rw [rstrip_append, hb]
      simp [h2]
    rw [h3, List.append_assoc]
    exact containsSub_of_append a n t
  | false =>
    have h3 : rstrip (a ++ n ++ b) = (a ++ n) ++ rstrip b := by
      rw [rstrip_append, hb]
      simp
    rw [h3]
    rw [show ((a ++ n) ++ rstrip b ++ t : List Char) =
      a ++ (n ++ (rstrip b ++ t)) from by simp]
    exact containsSub_of_append a n (rstrip b ++ t)

/-- C3: `add_peer_to_config` is atomic on failure.  A public key already
occurring in the file is exactly the Conflict case, and every failure
(duplicate, temp-file write, reload) returns the file to its pre-call
text; when the post-write reload fails the backup is restored and, when
the rollback reload succeeds, the kernel is re-synced to the pre-call
file; on success the file is the old text (right-stripped) plus one blank
line, the new peer block and a newline, the kernel matches the file, and
the key is present. -/
theorem add_peer_atomic_on_failure (writeOk reload1 reload2 : Bool)
    (public_key allowed_ip : List Char) (comment : Option (List Char))
    (st : WGState) (r : WGState × Option WGErr)
    (hr : r = add_peer_to_config writeOk reload1 reload2 public_key allowed_ip comment st) :
    (r.2 = some .conflict ↔ containsSub public_key st.file = true) ∧
    (∀ e, r.2 = some e → r.1.file = st.file) ∧
    (r.2 = some .reloadFailed → reload2 = true → r.1.kernel = st.file) ∧
    (r.2 = none →
      r.1.file = rstrip st.file ++ "\n\n".data ++
        peer_block public_key allowed_ip comment ++ ['\n'] ∧
      r.1.kernel = r.1.file ∧
      containsSub public_key r.1.file = true) := by
  subst hr
  simp only [add_peer_to_config]
  cases hdup : containsSub public_key st.file with
  | true =>
    refine ⟨by simp, by simp, by simp, by simp⟩
  | false =>
    cases hw : writeOk with
    | false => refine ⟨by simp [hdup], by simp, by simp, by simp⟩
    | true =>
      cases hr1 : reload1 with
      | true =>
        refine ⟨by simp [hdup], by simp, by simp, ?_⟩
        have hsplit : (rstrip st.file ++ "\n\n".data ++
            peer_block public_key allowed_ip comment ++ ['\n'] : List Char) =
          (rstrip st.file ++ "\n\n".data ++ ("[Peer]".data ++
            (match comment with
             | some cm => '\n' :: '#' :: ' ' :: cm
             | none => []) ++ "\nPublicKey = ".data)) ++
          (public_key ++ ("\nAllowedIPs = ".data ++ allowed_ip ++
            "/32".data ++ ['\n'])) := by
          cases comment <;> simp [peer_block]
        intro _
        refine ⟨rfl, rfl, ?_⟩
        simp only [WGState.file]
        rw [hsplit]
        exact containsSub_of_append _ _ _
      | false =>
        refine ⟨by simp [hdup], by simp, ?_, by simp⟩
        intro _ h2
        simp [h2]

/-- Witness for C3 at a concrete pre-state and all-success oracle. -/
theorem add_peer_atomic_on_failure_witness :
    (((add_peer_to_config true true true "PK1".data "10.50.0.3".data none
        ⟨"[Interface]\nAddress = 10.50.0.1/24\n".data, []⟩).2 = some .conflict) ↔
      containsSub "PK1".data
        (WGState.mk "[Interface]\nAddress = 10.50.0.1/24\n".data []).file = true) ∧
    (∀ e, (add_peer_to_config true true true "PK1".data "10.50.0.3".data none
        ⟨"[Interface]\nAddress = 10.50.0.1/24\n".data, []⟩).2 = some e →
      (add_peer_to_config true true true "PK1".data "10.50.0.3".data none
        ⟨"[Interface]\nAddress = 10.50.0.1/24\n".data, []⟩).1.file =
        (WGState.mk "[Interface]\nAddress = 10.50.0.1/24\n".data []).file) ∧
    ((add_peer_to_config true true true "PK1".data "10.50.0.3".data none
        ⟨"[Interface]\nAddress = 10.50.0.1/24\n".data, []⟩).2 = some .reloadFailed →
      true = true →
      (add_peer_to_config true true true "PK1".data "10.50.0.3".data none
        ⟨"[Interface]\nAddress = 10.50.0.1/24\n".data, []⟩).1.kernel =
        (WGState.mk "[Interface]\nAddress = 10.50.0.1/24\n".data []).file) ∧
    ((add_peer_to_config true true true "PK1".data "10.50.0.3".data none
        ⟨"[Interface]\nAddress = 10.50.0.1/24\n".data, []⟩).2 = none →
      (add_peer_to_config true true true "PK1".data "10.50.0.3".data none
        ⟨"[Interface]\nAddress = 10.50.0.1/24\n".data, []⟩).1.file =
        rstrip (WGState.mk "[Interface]\nAddress = 10.50.0.1/24\n".data []).file ++
          "\n\n".data ++ peer_block "PK1".data "10.50.0.3".data none ++ ['\n'] ∧
      (add_peer_to_config true true true "PK1".data "10.50.0.3".data none
        ⟨"[Interface]\nAddress = 10.50.0.1/24\n".data, []⟩).1.kernel =
        (add_peer_to_config true true true "PK1".data "10.50.0.3".data none
          ⟨"[Interface]\nAddress = 10.50.0.1/24\n".data, []⟩).1.file ∧
      containsSub "PK1".data
        (add_peer_to_config true true true "PK1".data "10.50.0.3".data none
          ⟨"[Interface]\nAddress = 10.50.0.1/24\n".data, []⟩).1.file = true) :=
  add_peer_atomic_on_failure true true true "PK1".data "10.50.0.3".data none
    ⟨"[Interface]\nAddress = 10.50.0.1/24\n".data, []⟩ _ rfl

lemma containsSub_newContent (f pub ip : List Char) (cm : Option (List Char)) :
    containsSub pub (rstrip f ++ "\n\n".data ++ peer_block pub ip cm ++ ['\n']) = true := by
  have hsplit : (rstrip f ++ "\n\n".data ++ peer_block pub ip cm ++ ['\n'] : List Char) =
    (rstrip f ++ "\n\n".data ++ ("[Peer]".data ++
      (match cm with
       | some c2 => '\n' :: '#' :: ' ' :: c2
       | none => []) ++ "\nPublicKey = ".data)) ++
    (pub ++ ("\nAllowedIPs = ".data ++ ip ++ "/32".data ++ ['\n'])) := by
    cases cm <;> simp [peer_block]
  rw [hsplit]
  exact containsSub_of_append _ _ _

/-- A fresh system: interface-only config, kernel synced to nothing yet,
empty registry and ACL chain. -/
def sysInit : Sys :=
  ⟨⟨"[Interface]\nAddress = 10.50.0.1/24\n".data, []⟩, [], []⟩

def orcAllOk : CreateOracle :=
  ⟨some ("PRIV1".data, "PUBKEY1".data), true, true, true, true⟩

def orcDbFail : CreateOracle :=
  ⟨some ("PRIV1".data, "PUBKEY1".data), true, true, true, false⟩

/-- Counterexample to C1 as stated: on a concrete successful create the
mutation order is allocate, file+kernel, ACL filter, registry — the
registry insert comes after the filter install, not before it. -/
theorem create_order_counterexample :
    (create_vpn_user orcAllOk "alice".data "linux".data "full" sysInit).2.2 = none ∧
    ((create_vpn_user orcAllOk "alice".data "linux".data "full" sysInit).2.1.map
        (fun p => evKind p.1)) = [.allocK, .addPeerK, .aclK, .regK] ∧
    ((create_vpn_user orcAllOk "alice".data "linux".data "full" sysInit).2.1.map
        (fun p => evKind p.1)) ≠ [.allocK, .addPeerK, .regK, .aclK] := by
  decide

/-- C1 (amended): every successful create mutates in the strict order
allocate → file+kernel → filter (ACL) → registry; the registry insert is
the final mutation, after the ACL application, not before it as claimed.
The claim's consequent still holds: at no point during the call is the
new user's registry row observable while the peer's public key is absent
from the kernel. -/
theorem create_lifecycle_order (o : CreateOracle) (username client_os : List Char)
    (acl_profile : String) (s : Sys) (priv pub : List Char)
    (hkp : o.keypair = some (priv, pub))
    (hsucc : (create_vpn_user o username client_os acl_profile s).2.2 = none) :
    ((create_vpn_user o username client_os acl_profile s).2.1.map
        (fun p => evKind p.1)) = [.allocK, .addPeerK, .aclK, .regK] ∧
    ∀ p ∈ (create_vpn_user o username client_os acl_profile s).2.1,
      p.2.registry.any (fun row => row.username == username) = true →
      containsSub pub p.2.wg.kernel = true := by
  cases hex : s.registry.any (fun r => r.username == username) with
  | true =>
    simp only [create_vpn_user, hex, if_true] at hsucc
    simp at hsucc
  | false =>
  cases halloc : allocate_ip (get_used_ips s.registry) with
  | error msg =>
    simp only [create_vpn_user, hex, Bool.false_eq_true, if_false, hkp, halloc] at hsucc
    simp at hsucc
  | ok assigned_ip =>
  cases hdup : containsSub pub s.wg.file with
  | true =>
    have hadd : add_peer_to_config o.writeOk o.reload1 o.reload2 pub
        assigned_ip.data (some username) s.wg = (s.wg, some .conflict) := by
      simp [add_peer_to_config, hdup]
    simp only [create_vpn_user, hex, Bool.false_eq_true, if_false, hkp, halloc,
      hadd] at hsucc
    simp at hsucc
  | false =>
  cases hw : o.writeOk with
  | false =>
    have hadd : add_peer_to_config o.writeOk o.reload1 o.reload2 pub
        assigned_ip.data (some username) s.wg = (s.wg, some .writeFailed) := by
      simp [add_peer_to_config, hdup, hw]
    simp only [create_vpn_user, hex, Bool.false_eq_true, if_false, hkp, halloc,
      hadd] at hsucc
    simp at hsucc
  | true =>
  cases hrl : o.reload1 with
  | false =>
    have hadd : add_peer_to_config o.writeOk o.reload1 o.reload2 pub
        assigned_ip.data (some username) s.wg =
        (⟨s.wg.file, if o.reload2 then s.wg.file else s.wg.kernel⟩,
         some .reloadFailed) := by
      simp [add_peer_to_config, hdup, hw, hrl]
    simp only [create_vpn_user, hex, Bool.false_eq_true, if_false, hkp, halloc,
      hadd] at hsucc
    simp at hsucc
  | true =>
  have hadd : add_peer_to_config o.writeOk o.reload1 o.reload2 pub
      assigned_ip.data (some username) s.wg =
      (⟨rstrip s.wg.file ++ "\n\n".data ++
          peer_block pub assigned_ip.data (some username) ++ ['\n'],
        rstrip s.wg.file ++ "\n\n".data ++
          peer_block pub assigned_ip.data (some username) ++ ['\n']⟩, none) := by
    simp [add_peer_to_config, hdup, hw, hrl]
  cases hdb : o.dbOk with
  | false =>
    simp only [create_vpn_user, hex, Bool.false_eq_true, if_false, hkp, halloc,
      hadd, hdb] at hsucc
    simp at hsucc
  | true =>
  simp only [create_vpn_user, hex, Bool.false_eq_true, if_false, hkp, halloc,
    hadd, hdb, if_true]
  constructor
  · simp [evKind]
  · intro p hp hreg
    simp only [List.cons_append, List.nil_append, List.mem_cons,
      List.not_mem_nil, or_false] at hp
    rcases hp with h | h | h | h
    · rw [h] at hreg
      simp only at hreg
      rw [hex] at hreg
      cases hreg
    · rw [h] at hreg
      simp only at hreg
      rw [hex] at hreg
      cases hreg
    · rw [h] at hreg
      simp only at hreg
      rw [hex] at hreg
      cases hreg
    · rw [h]
      simp only
      exact containsSub_newContent s.wg.file pub assigned_ip.data (some username)

/-- Witness for the amended C1 at a concrete oracle and fresh system. -/
theorem create_lifecycle_order_witness :
    (create_vpn_user orcAllOk "alice".data "linux".data "full" sysInit).2.2 = none ∧
    (((create_vpn_user orcAllOk "alice".data "linux".data "full" sysInit).2.1.map
        (fun p => evKind p.1)) = [.allocK, .addPeerK, .aclK, .regK] ∧
     ∀ p ∈ (create_vpn_user orcAllOk "alice".data "linux".data "full" sysInit).2.1,
       p.2.registry.any (fun row => row.username == "alice".data) = true →
       containsSub "PUBKEY1".data p.2.wg.kernel = true) :=
  ⟨by decide, create_lifecycle_order orcAllOk "alice".data "linux".data "full"
    sysInit "PRIV1".data "PUBKEY1".data rfl (by decide)⟩

/-- C2 divergence: when the registry insert fails after the file add,
`create_vpn_user` surfaces the error but performs no rollback — the peer
remains in the config file and in the kernel while the registry is
unchanged, so file and kernel membership differs from the pre-create
state. -/
theorem create_registry_failure_no_rollback :
    (create_vpn_user orcDbFail "alice".data "linux".data "full" sysInit).2.2 =
      some .dbError ∧
    containsSub "PUBKEY1".data
      (create_vpn_user orcDbFail "alice".data "linux".data "full" sysInit).1.wg.file =
      true ∧
    containsSub "PUBKEY1".data
      (create_vpn_user orcDbFail "alice".data "linux".data "full" sysInit).1.wg.kernel =
      true ∧
    containsSub "PUBKEY1".data sysInit.wg.file = false ∧
    (create_vpn_user orcDbFail "alice".data "linux".data "full" sysInit).1.registry =
      sysInit.registry := by
  decide

lemma syncStep_preserves (o : SyncOracle) (acc : WGState × Nat × List (List Char) × Nat)
    (row : RegRow) (n : List Char)
    (hn : ∃ m c, n = m ++ [c] ∧ isSpaceChar c = false)
    (h : containsSub n acc.1.file = true) :
    containsSub n (syncStep o acc row).1.file = true := by
  unfold syncStep
  cases hst : (row.status == "active".data) with
  | false =>
    simp only [hst, Bool.false_eq_true, if_false]
    exact h
  | true =>
    simp only [hst, if_true]
    cases hdup : containsSub row.public_key acc.1.file with
    | true =>
      have hadd : add_peer_to_config (o.writeOk acc.2.2.2) (o.reload1 acc.2.2.2)
          (o.reload2 acc.2.2.2) row.public_key row.assigned_ip.data none acc.1 =
          (acc.1, some .conflict) := by
        simp [add_peer_to_config, hdup]
      simp only [hadd]
      exact h
    | false =>
      cases hw : o.writeOk acc.2.2.2 with
      | false =>
        have hadd : add_peer_to_config false (o.reload1 acc.2.2.2)
            (o.reload2 acc.2.2.2) row.public_key row.assigned_ip.data none acc.1 =
            (acc.1, some .writeFailed) := by
          simp [add_peer_to_config, hdup]
        simp only [hadd]
        exact h
      | true =>
        cases hrl : o.reload1 acc.2.2.2 with
        | true =>
          have hadd : add_peer_to_config true true
              (o.reload2 acc.2.2.2) row.public_key row.assigned_ip.data none acc.1 =
              (⟨rstrip acc.1.file ++ "\n\n".data ++
                  peer_block row.public_key row.assigned_ip.data none ++ ['\n'],
                rstrip acc.1.file ++ "\n\n".data ++
                  peer_block row.public_key row.assigned_ip.data none ++ ['\n']⟩,
               none) := by
            simp [add_peer_to_config, hdup]
          simp only [hadd]
          rw [show (rstrip acc.1.file ++ "\n\n".data ++
              peer_block row.public_key row.assigned_ip.data none ++ ['\n'] : List Char) =
            rstrip acc.1.file ++ ("\n\n".data ++
              (peer_block row.public_key row.assigned_ip.data none ++ ['\n'])) from by simp]
          exact containsSub_rstrip_append n acc.1.file _ hn h
        | false =>
          have hadd : add_peer_to_config true false
              (o.reload2 acc.2.2.2) row.public_key row.assigned_ip.data none acc.1 =
              (⟨acc.1.file,
                if o.reload2 acc.2.2.2 then acc.1.file else acc.1.kernel⟩,
               some .reloadFailed) := by
            simp [add_peer_to_config, hdup]
          simp only [hadd]
          exact h

lemma syncStep_adds (o : SyncOracle) (acc : WGState × Nat × List (List Char) × Nat)
    (row : RegRow) (hact : (row.status == "active".data) = true)
    (horc : ∀ i, o.writeOk i = true ∧ o.reload1 i = true) :
    containsSub row.public_key (syncStep o acc row).1.file = true := by
  unfold syncStep
  simp only [hact, if_true]
  cases hdup : containsSub row.public_key acc.1.file with
  | true =>
    have hadd : add_peer_to_config (o.writeOk acc.2.2.2) (o.reload1 acc.2.2.2)
        (o.reload2 acc.2.2.2) row.public_key row.assigned_ip.data none acc.1 =
        (acc.1, some .conflict) := by
      simp [add_peer_to_config, hdup]
    simp only [hadd]
    exact hdup
  | false =>
    obtain ⟨hw, hrl⟩ := horc acc.2.2.2
    have hadd : add_peer_to_config (o.writeOk acc.2.2.2) (o.reload1 acc.2.2.2)
        (o.reload2 acc.2.2.2) row.public_key row.assigned_ip.data none acc.1 =
        (⟨rstrip acc.1.file ++ "\n\n".data ++
            peer_block row.public_key row.assigned_ip.data none ++ ['\n'],
          rstrip acc.1.file ++ "\n\n".data ++
            peer_block row.public_key row.assigned_ip.data none ++ ['\n']⟩,
         none) := by
      simp [add_peer_to_config, hdup, hw, hrl]
    simp only [hadd]
    exact containsSub_newContent acc.1.file row.public_key row.assigned_ip.data none

lemma foldl_syncStep_present (o : SyncOracle)
    (horc : ∀ i, o.writeOk i = true ∧ o.reload1 i = true) :
    ∀ (rows : List RegRow) (acc : WGState × Nat × List (List Char) × Nat),
      ∀ n, (∃ m c, n = m ++ [c] ∧ isSpaceChar c = false) →
        (containsSub n acc.1.file = true ∨
         ∃ row ∈ rows, (row.status == "active".data) = true ∧ n = row.public_key) →
        containsSub n ((rows.foldl (syncStep o) acc).1).file = true := by
  intro rows
  induction rows with
  | nil =>
    intro acc n _ hdisj
    rcases hdisj with h | ⟨row, hmem, _⟩
    · exact h
    · cases hmem
  | cons row rows2 ih =>
    intro acc n hn hdisj
    rw [List.foldl_cons]
    apply ih (syncStep o acc row) n hn
    rcases hdisj with h | ⟨row2, hmem, hact, heq⟩
    · exact Or.inl (syncStep_preserves o acc row n hn h)
    · rcases List.mem_cons.mp hmem with he | ht
      · left
        rw [heq, he]
        exact syncStep_adds o acc row (he ▸ hact) horc
      · exact Or.inr ⟨row2, ht, hact, heq⟩

lemma foldl_syncStep_noop (o : SyncOracle) :
    ∀ (rows : List RegRow) (acc : WGState × Nat × List (List Char) × Nat),
      (∀ row ∈ rows, (row.status == "active".data) = true →
        containsSub row.public_key acc.1.file = true) →
      ((rows.foldl (syncStep o) acc).1) = acc.1 := by
  intro rows
  induction rows with
  | nil => intro acc _; rfl
  | cons row rows2 ih =>
    intro acc hpres
    have hstep : (syncStep o acc row).1 = acc.1 := by
      unfold syncStep
      cases hst : (row.status == "active".data) with
      | false => simp [hst]
      | true =>
        have hdup : containsSub row.public_key acc.1.file = true :=
          hpres row (List.mem_cons_self _ _) hst
        have hadd : add_peer_to_config (o.writeOk acc.2.2.2) (o.reload1 acc.2.2.2)
            (o.reload2 acc.2.2.2) row.public_key row.assigned_ip.data none acc.1 =
            (acc.1, some .conflict) := by
          simp [add_peer_to_config, hdup]
        simp only [hst, if_true, hadd]
    rw [List.foldl_cons]
    have := ih (syncStep o acc row) (by
      intro row2 hmem hact
      rw [hstep]
      exact hpres row2 (List.mem_cons_of_mem _ hmem) hact)
    rw [this, hstep]

/-- A system whose config file holds the active user alice's peer and one
extra peer with no registry row. -/
def sysSync : Sys :=
  ⟨⟨("[Interface]\nAddress = 10.50.0.1/24\n\n[Peer]\nPublicKey = ALICEPK\nAllowedIPs = 10.50.0.3/32\n\n[Peer]\nPublicKey = EXTRAPK\nAllowedIPs = 10.50.0.9/32\n").data,
    []⟩,
   [⟨"alice".data, "ALICEPK".data, "10.50.0.3", "linux".data, "full", "active".data⟩],
   []⟩

def syncOrcOk : SyncOracle := ⟨fun _ => true, fun _ => true, fun _ => true⟩

/-- Counterexample to C4 as stated: `sync_all_users` never removes peers
that have no active registry row, and re-syncing an already-present
active peer records a per-user error instead of a clean no-op — the state
is left unchanged with the extra peer still in the file, so file
membership does not match the registry's active set, and no reconciler
enforce pass happens. -/
theorem sync_all_counterexample :
    (sync_all_users syncOrcOk sysSync).1 = sysSync ∧
    containsSub "EXTRAPK".data (sync_all_users syncOrcOk sysSync).1.wg.file = true ∧
    (∀ row ∈ (sync_all_users syncOrcOk sysSync).1.registry,
      row.public_key ≠ "EXTRAPK".data) ∧
    (sync_all_users syncOrcOk sysSync).2.2 ≠ [] := by
  decide

/-- C4 (amended): `sync_all_users` only adds missing active peers — after
a run with succeeding writes and reloads every active registry row's key
occurs in the file, every previously present needle (ending in
non-whitespace) is still present, registry and ACL chain are untouched —
and it is idempotent on state: a second run (any oracle) changes nothing.
It does not remove peers absent from the registry, so file membership can
strictly exceed the active set, and an already-present active peer yields
a per-user Conflict error rather than a silent no-op. -/
theorem sync_all_only_adds (o : SyncOracle) (s : Sys)
    (horc : ∀ i, o.writeOk i = true ∧ o.reload1 i = true)
    (hshape : ∀ row ∈ s.registry,
      ∃ m c, row.public_key = m ++ [c] ∧ isSpaceChar c = false) :
    (∀ row ∈ s.registry, (row.status == "active".data) = true →
      containsSub row.public_key (sync_all_users o s).1.wg.file = true) ∧
    (∀ n, (∃ m c, n = m ++ [c] ∧ isSpaceChar c = false) →
      containsSub n s.wg.file = true →
      containsSub n (sync_all_users o s).1.wg.file = true) ∧
    ((sync_all_users o s).1.registry = s.registry ∧
     (sync_all_users o s).1.chain = s.chain) ∧
    (∀ o2, (sync_all_users o2 (sync_all_users o s).1).1 = (sync_all_users o s).1) := by
  have hwg : (sync_all_users o s).1.wg =
      (s.registry.foldl (syncStep o) (s.wg, 0, [], 0)).1 := rfl
  have hA : ∀ row ∈ s.registry, (row.status == "active".data) = true →
      containsSub row.public_key (sync_all_users o s).1.wg.file = true := by
    intro row hmem hact
    rw [hwg]
    exact foldl_syncStep_present o horc s.registry (s.wg, 0, [], 0)
      row.public_key (hshape row hmem) (Or.inr ⟨row, hmem, hact, rfl⟩)
  have hreg : (sync_all_users o s).1.registry = s.registry := rfl
  refine ⟨hA, ?_, ⟨rfl, rfl⟩, ?_⟩
  · intro n hn h
    rw [hwg]
    exact foldl_syncStep_present o horc s.registry (s.wg, 0, [], 0) n hn (Or.inl h)
  · intro o2
    have hno := foldl_syncStep_noop o2 (sync_all_users o s).1.registry
      ((sync_all_users o s).1.wg, 0, [], 0) (by
        intro row hmem hact
        rw [hreg] at hmem
        exact hA row hmem hact)
    show ({ (sync_all_users o s).1 with
      wg := ((sync_all_users o s).1.registry.foldl (syncStep o2)
        ((sync_all_users o s).1.wg, 0, [], 0)).1 } : Sys) = (sync_all_users o s).1
    rw [hno]

/-- Witness for the amended C4 at the concrete demo system. -/
theorem sync_all_only_adds_witness :
    (∀ row ∈ sysSync.registry, (row.status == "active".data) = true →
      containsSub row.public_key (sync_all_users syncOrcOk sysSync).1.wg.file = true) ∧
    (∀ n, (∃ m c, n = m ++ [c] ∧ isSpaceChar c = false) →
      containsSub n sysSync.wg.file = true →
      containsSub n (sync_all_users syncOrcOk sysSync).1.wg.file = true) ∧
    ((sync_all_users syncOrcOk sysSync).1.registry = sysSync.registry ∧
     (sync_all_users syncOrcOk sysSync).1.chain = sysSync.chain) ∧
    (∀ o2, (sync_all_users o2 (sync_all_users syncOrcOk sysSync).1).1 =
      (sync_all_users syncOrcOk sysSync).1) :=
  sync_all_only_adds syncOrcOk sysSync (fun _ => ⟨rfl, rfl⟩) (by
    intro row hmem
    rw [List.mem_singleton.mp hmem]
    exact ⟨"ALICEP".data, 'K', by decide, by decide⟩)

end VPNConsole
